import Mathlib

/-!
# ProjectExplorer::ToolChain — identity, equality and persistence

A shallow embedding of `src/plugins/projectexplorer/toolchain.cpp`.

The Qt value types the file uses are modelled first (`QString`, `QByteArray`,
`QVariant`, `QVariantMap`), each with the documented behaviour of the member
functions that `toolchain.cpp` calls.  The descriptor (`ToolChainPrivate`,
`ToolChain`) and the factory helpers follow, one definition per source
function, under the source's names.  Theorems come last.
-/

/-! ## Qt value types -/

/-- A `QString`: the sequence of characters of a piece of well-formed text. -/
abbrev QString := List Char

/-- A `QByteArray`: a sequence of bytes, each a natural number below 256. -/
abbrev QByteArray := List Nat

/-- The UTF-8 encoding of one character (one to four bytes). -/
def utf8EncodeChar (c : Char) : QByteArray :=
  let n := c.toNat
  if n < 0x80 then [n]
  else if n < 0x800 then [0xC0 + n / 64, 0x80 + n % 64]
  else if n < 0x10000 then [0xE0 + n / 4096, 0x80 + n / 64 % 64, 0x80 + n % 64]
  else [0xF0 + n / 262144, 0x80 + n / 4096 % 64, 0x80 + n / 64 % 64, 0x80 + n % 64]

/-- `QString::toUtf8`. -/
def QString.toUtf8 : QString → QByteArray
  | [] => []
  | c :: cs => utf8EncodeChar c ++ QString.toUtf8 cs

/-- A UTF-8 continuation byte `10xxxxxx`. -/
def isContinuation (b : Nat) : Bool := decide (0x80 ≤ b) && decide (b < 0xC0)

/-- The replacement character U+FFFD that the decoder emits for a byte that
starts no well-formed sequence. -/
def replacementChar : Char := Char.ofNat 0xFFFD

/-- Decodes the first character of a non-empty byte sequence and returns it
with the bytes that follow it.  Only shortest-form encodings of Unicode scalar
values are accepted; any other leading byte is consumed alone and decoded as
U+FFFD. -/
def utf8DecodeChar (b0 : Nat) (rest : QByteArray) : Char × QByteArray :=
  if b0 < 0x80 then (Char.ofNat b0, rest)
  else
    match rest with
    | [] => (replacementChar, rest)
    | b1 :: r1 =>
      if 0xC0 ≤ b0 ∧ b0 < 0xE0 then
        let n := (b0 - 0xC0) * 64 + (b1 - 0x80)
        if isContinuation b1 ∧ 0x80 ≤ n then (Char.ofNat n, r1) else (replacementChar, rest)
      else
        match r1 with
        | [] => (replacementChar, rest)
        | b2 :: r2 =>
          if 0xE0 ≤ b0 ∧ b0 < 0xF0 then
            let n := (b0 - 0xE0) * 4096 + (b1 - 0x80) * 64 + (b2 - 0x80)
            if isContinuation b1 ∧ isContinuation b2 ∧ 0x800 ≤ n ∧ n.isValidChar then
              (Char.ofNat n, r2)
            else (replacementChar, rest)
          else
            match r2 with
            | [] => (replacementChar, rest)
            | b3 :: r3 =>
              let n := (b0 - 0xF0) * 262144 + (b1 - 0x80) * 4096 + (b2 - 0x80) * 64 + (b3 - 0x80)
              if 0xF0 ≤ b0 ∧ b0 < 0xF8 ∧ isContinuation b1 ∧ isContinuation b2 ∧ isContinuation b3
                  ∧ 0x10000 ≤ n ∧ n.isValidChar then
                (Char.ofNat n, r3)
              else (replacementChar, rest)

/-- The decoding loop of `QString::fromUtf8`: one character per round, at
most `fuel` rounds. -/
def fromUtf8Loop : Nat → QByteArray → QString
  | 0, _ => []
  | _ + 1, [] => []
  | fuel + 1, b0 :: rest =>
    let r := utf8DecodeChar b0 rest
    r.1 :: fromUtf8Loop fuel r.2

/-- The bytes before the first NUL byte: what `qstrnlen(data, size)` lets
`QString::fromUtf8(const QByteArray &)` see of the array. -/
def untilNul (ba : QByteArray) : QByteArray := ba.takeWhile fun b => b != 0

/-- The decoder skips a UTF-8 byte-order mark `EF BB BF` at the very start
of its input. -/
def skipUtf8Bom (ba : QByteArray) : QByteArray :=
  if ba.take 3 = [0xEF, 0xBB, 0xBF] then ba.drop 3 else ba

/-- `QString::fromUtf8(const QByteArray &)` as in Qt 5: only the bytes before
the first NUL byte are converted, and a leading byte-order mark is skipped.
Every round of the loop consumes at least one byte, so the number of bytes is
enough fuel to decode all of them. -/
def QString.fromUtf8 (ba : QByteArray) : QString :=
  fromUtf8Loop (skipUtf8Bom (untilNul ba)).length (skipUtf8Bom (untilNul ba))

/-- `QString::isEmpty`. -/
def QString.isEmpty (s : QString) : Bool := s.length == 0

/-- `QString::indexOf(QChar)`: the index of the first occurrence of `c`, or
`-1` when `c` does not occur. -/
def QString.indexOf : QString → Char → Int
  | [], _ => -1
  | x :: xs, c =>
    if x = c then 0
    else
      let r := QString.indexOf xs c
      if r < 0 then -1 else r + 1

/-- `QString::left(n)`: the `n` leftmost characters; the entire string when
`n` is negative or not less than the size. -/
def QString.left (s : QString) (n : Int) : QString :=
  if n < 0 ∨ (s.length : Int) ≤ n then s else s.take n.toNat

/-- `QString::mid(position, n)`: `n` characters starting at `position`.  An
empty string when `position` exceeds the size; everything available from
`position` when `n` is `-1` or reaches past the end. -/
def QString.mid (s : QString) (position n : Int) : QString :=
  let size : Int := s.length
  if size < position then []
  else if position < 0 then
    if n < 0 ∨ size ≤ n + position then s
    else if n + position ≤ 0 then []
    else s.take (n + position).toNat
  else if n < 0 ∨ size - position < n then s.drop position.toNat
  else (s.drop position.toNat).take n.toNat

/-- `QString::arg(a)` for a template whose only place marker is `%1`: every
occurrence of the marker is replaced by `a`; the inserted text is not scanned
again. -/
def QString.arg : QString → QString → QString
  | [], _ => []
  | '%' :: '1' :: rest, a => a ++ QString.arg rest a
  | c :: rest, a => c :: QString.arg rest a

/-- Reads a 64-bit integer into the value range of a C++ `int` (two's
complement, 32 bits). -/
def wrapInt32 (n : Int) : Int := (n + 2 ^ 31) % 2 ^ 32 - 2 ^ 31

/-- White space as skipped around a number by `QString::toLongLong`. -/
def isSpaceChar (c : Char) : Bool :=
  c = ' ' || c = '\t' || c = '\n' || c = '\r' || c.toNat = 11 || c.toNat = 12

/-- The value of a run of decimal digits appended to `acc`; `none` when a
character is not a digit. -/
def parseDigits : QString → Nat → Option Nat
  | [], acc => some acc
  | c :: cs, acc =>
    if 48 ≤ c.toNat ∧ c.toNat ≤ 57 then parseDigits cs (acc * 10 + (c.toNat - 48)) else none

/-- The text without its leading and trailing white space. -/
def trimmed (s : QString) : QString :=
  ((s.dropWhile isSpaceChar).reverse.dropWhile isSpaceChar).reverse

/-- `QString::toLongLong(&ok)` in base 10: optional sign, then at least one
decimal digit, white space around it ignored; `none` (ok = false) when the
text is anything else or the number does not fit 64 bits. -/
def QString.toLongLong (s : QString) : Option Int :=
  match trimmed s with
  | [] => none
  | '-' :: ds =>
    if ds.isEmpty then none
    else (parseDigits ds 0).bind fun v => if v ≤ 2 ^ 63 then some (-(v : Int)) else none
  | '+' :: ds =>
    if ds.isEmpty then none
    else (parseDigits ds 0).bind fun v => if v < 2 ^ 63 then some (v : Int) else none
  | ds => (parseDigits ds 0).bind fun v => if v < 2 ^ 63 then some (v : Int) else none

/-- ASCII lower-casing, which is all that the comparison with `"false"` in
`QVariant::toBool` can observe. -/
def asciiLower (c : Char) : Char :=
  if 65 ≤ c.toNat ∧ c.toNat ≤ 90 then Char.ofNat (c.toNat + 32) else c

/-- A `QVariant`, restricted to the kinds that `ToolChain::toMap` writes
(string, bool, int) and the invalid variant that `QMap::value` returns for an
absent key. -/
inductive QVariant where
  | invalid
  | bool (b : Bool)
  | int (i : Int)
  | string (s : QString)
  deriving DecidableEq, Repr

namespace QVariant

/-- `QVariant::toString`. -/
def toString : QVariant → QString
  | invalid => []
  | bool b => if b then "true".toList else "false".toList
  | int i => (Int.repr i).toList
  | string s => s

/-- `QVariant::toBool`: a number is true when non-zero; a string is true
unless its lower-case content is empty, `"0"` or `"false"`. -/
def toBool : QVariant → Bool
  | invalid => false
  | bool b => b
  | int i => decide (i ≠ 0)
  | string s =>
    let l := s.map asciiLower
    !(l.isEmpty || l == "0".toList || l == "false".toList)

/-- `QVariant::toInt(&ok)`: the value and the `ok` flag.  A failed conversion
gives `0` with `ok = false`; a string is read as a 64-bit number and narrowed
to `int`. -/
def toInt : QVariant → Int × Bool
  | invalid => (0, false)
  | bool b => (if b then 1 else 0, true)
  | int i => (i, true)
  | string s =>
    match QString.toLongLong s with
    | some v => (wrapInt32 v, true)
    | none => (0, false)

end QVariant

/-- A `QVariantMap` (`QMap<QString, QVariant>`), as the list of its bindings;
the first binding of a key is the one the map holds. -/
abbrev QVariantMap := List (QString × QVariant)

namespace QVariantMap

/-- `QMap::find`: the value bound to `key`, if any. -/
def find : QVariantMap → QString → Option QVariant
  | [], _ => none
  | (k, v) :: m, key => if k = key then some v else find m key

/-- `QMap::contains`. -/
def contains (m : QVariantMap) (key : QString) : Bool := (find m key).isSome

/-- `QMap::value(key, defaultValue)`. -/
def valueOr (m : QVariantMap) (key : QString) (defaultValue : QVariant) : QVariant :=
  match find m key with
  | some v => v
  | none => defaultValue

/-- `QMap::value(key)`: a default-constructed (invalid) variant when the key
is absent. -/
def value (m : QVariantMap) (key : QString) : QVariant := valueOr m key QVariant.invalid

/-- `QMap::insert`: replaces the value of an existing key, adds the binding
otherwise. -/
def insert : QVariantMap → QString → QVariant → QVariantMap
  | [], key, v => [(key, v)]
  | (k, w) :: m, key, v => if k = key then (key, v) :: m else (k, w) :: insert m key v

end QVariantMap

/-! ## Core::Id -/

namespace Core

/-- Modelled from the spec: `Core::Id` (coreplugin/id.h), the opaque stable
identifier naming a toolchain kind such as "gcc" or "msvc".  An id is its
name; the default-constructed id has the empty name and is the invalid id. -/
structure Id where
  name : QString
  deriving DecidableEq, Repr

/-- `Id::isValid`. -/
def Id.isValid (i : Id) : Bool := !i.name.isEmpty

/-- `Id::toString`. -/
def Id.toString (i : Id) : QString := i.name

/-- `Id::fromString`. -/
def Id.fromString (s : QString) : Id := ⟨s⟩

end Core

/-! ## ProjectExplorer::ToolChain -/

namespace ProjectExplorer

/-- The key of the composite id in the persisted map. -/
def ID_KEY : QString := "ProjectExplorer.ToolChain.Id".toList

/-- The key of the display name in the persisted map. -/
def DISPLAY_NAME_KEY : QString := "ProjectExplorer.ToolChain.DisplayName".toList

/-- The key of the auto-detection flag in the persisted map. -/
def AUTODETECT_KEY : QString := "ProjectExplorer.ToolChain.Autodetect".toList

/-- The key of the language ordinal in the persisted map. -/
def LANGUAGE_KEY : QString := "ProjectExplorer.ToolChain.Language".toList

/-- Modelled from the spec: `enum class ToolChain::Language` (toolchain.h),
with the persisted ordinals None = 0, C = 1, Cxx = 2.  A value of the
enumeration is its underlying `int`, so that `static_cast<Language>(n)` in
`fromMap` is defined for every `n`, as it is in C++. -/
structure Language where
  ordinal : Int
  deriving DecidableEq, Repr

namespace Language

/-- The sentinel `Language::None`. -/
def None : Language := ⟨0⟩

/-- The enumerator `Language::C`. -/
def C : Language := ⟨1⟩

/-- The enumerator `Language::Cxx`. -/
def Cxx : Language := ⟨2⟩

/-- The conversion `static_cast<int>(language)`. -/
def toInt (l : Language) : Int := l.ordinal

/-- The conversion `static_cast<Language>(n)`. -/
def ofInt (n : Int) : Language := ⟨n⟩

end Language

/-- Modelled from the spec: `enum ToolChain::Detection` (toolchain.h), how a
descriptor came to exist: manual entry, or one of the auto-detection
sources. -/
inductive Detection where
  | ManualDetection
  | AutoDetection
  | AutoDetectionFromSettings
  deriving DecidableEq, Repr

/-- Modelled from the spec: `ToolChainManager` (toolchainmanager.h), seen
through the notification bridge only: the number of `notifyAboutUpdate` calls
it has received. -/
structure ToolChainManager where
  updates : Nat
  deriving DecidableEq, Repr

/-- Modelled from the spec: `ToolChainManager::notifyAboutUpdate(tc)`, one
more mutation announced to the registry. -/
def ToolChainManager.notifyAboutUpdate (m : ToolChainManager) : ToolChainManager :=
  { m with updates := m.updates + 1 }

namespace Internal

/-- The private state of a descriptor (`class ToolChainPrivate`, lines 51-71). -/
structure ToolChainPrivate where
  m_id : QByteArray
  m_supportedLanguages : List Language
  m_displayName : QString
  m_typeId : Core.Id
  m_language : Language
  m_detection : Detection
  deriving DecidableEq, Repr

/-- The constructor `ToolChainPrivate(typeId, d)` (lines 56-63).  `uuid`
is the value of `QUuid::createUuid().toByteArray()`.  The two assertions of
the body only return from it when they fail, after all members are
initialised, so they do not change the object. -/
def ToolChainPrivate.new (uuid : QByteArray) (typeId : Core.Id) (d : Detection) :
    ToolChainPrivate :=
  { m_id := uuid
    m_supportedLanguages := []
    m_displayName := []
    m_typeId := typeId
    m_language := Language.None
    m_detection := d }

end Internal

/-- A tool chain object: its private state `d` and, for the pure virtual
`typeDisplayName()` that the concrete class supplies, the text that it
returns.  No member function of the base class changes the latter. -/
structure ToolChain where
  d : Internal.ToolChainPrivate
  typeDisplayName : QString
  deriving DecidableEq, Repr

namespace ToolChain

/-- The constructor `ToolChain(typeId, d)` (lines 83-86), for a concrete class
whose `typeDisplayName()` returns `typeName`. -/
def new (uuid : QByteArray) (typeName : QString) (typeId : Core.Id) (d : Detection) :
    ToolChain :=
  { d := Internal.ToolChainPrivate.new uuid typeId d, typeDisplayName := typeName }

/-- `ToolChain::displayName` (lines 111-116). -/
def displayName (tc : ToolChain) : QString :=
  if QString.isEmpty tc.d.m_displayName then tc.typeDisplayName
  else tc.d.m_displayName

/-- `ToolChain::detection` (lines 127-130). -/
def detection (tc : ToolChain) : Detection := tc.d.m_detection

/-- `ToolChain::id` (lines 132-135). -/
def id (tc : ToolChain) : QByteArray := tc.d.m_id

/-- `ToolChain::typeId` (lines 147-150). -/
def typeId (tc : ToolChain) : Core.Id := tc.d.m_typeId

/-- `ToolChain::language` (lines 184-187). -/
def language (tc : ToolChain) : Language := tc.d.m_language

/-- Modelled from the spec: `ToolChain::isAutoDetected` (toolchain.h), the
boolean derived from the provenance: true if it indicates autodetection. -/
def isAutoDetected (tc : ToolChain) : Bool :=
  decide (tc.detection ≠ Detection.ManualDetection)

/-- `QCoreApplication::translate(context, sourceText)` with no translation
installed: the source text. -/
def translate (sourceText : QString) : QString := sourceText

/-- The copy constructor `ToolChain(const ToolChain &other)` (lines 88-96),
for a concrete class whose `typeDisplayName()` returns `typeName`. -/
def copy (uuid : QByteArray) (typeName : QString) (other : ToolChain) : ToolChain :=
  let d := Internal.ToolChainPrivate.new uuid other.d.m_typeId Detection.ManualDetection
  let d := { d with m_language := other.d.m_language }
  let d := { d with
    m_displayName := QString.arg (translate "Clone of %1".toList) other.displayName }
  { d := d, typeDisplayName := typeName }

/-- `ToolChain::toolChainUpdated` (lines 221-224). -/
def toolChainUpdated (_tc : ToolChain) (mgr : ToolChainManager) : ToolChainManager :=
  mgr.notifyAboutUpdate

/-- `ToolChain::setLanguage` (lines 98-104).  A failing `QTC_ASSERT` reports
the location and runs its action, here `return`.  The body has no call of
`toolChainUpdated`: the manager is handed back as it was received. -/
def setLanguage (tc : ToolChain) (l : Language) (mgr : ToolChainManager) :
    ToolChain × ToolChainManager :=
  if ¬ (tc.d.m_language = Language.None) then (tc, mgr)
  else if ¬ (l ≠ Language.None) then (tc, mgr)
  else ({ tc with d := { tc.d with m_language := l } }, mgr)

/-- `ToolChain::setDisplayName` (lines 118-125). -/
def setDisplayName (tc : ToolChain) (name : QString) (mgr : ToolChainManager) :
    ToolChain × ToolChainManager :=
  if tc.d.m_displayName = name then (tc, mgr)
  else
    let tc1 := { tc with d := { tc.d with m_displayName := name } }
    (tc1, tc1.toolChainUpdated mgr)

/-- `ToolChain::setDetection` (lines 226-232). -/
def setDetection (tc : ToolChain) (de : Detection) (mgr : ToolChainManager) :
    ToolChain × ToolChainManager :=
  if tc.d.m_detection = de then (tc, mgr)
  else
    let tc1 := { tc with d := { tc.d with m_detection := de } }
    (tc1, tc1.toolChainUpdated mgr)

/-- `ToolChain::operator==` (lines 194-201).  Objects live in the store `mem`
and are named by their addresses, so that `this == &tc` can be decided. -/
def operatorEq (mem : Nat → ToolChain) (self tc : Nat) : Bool :=
  if self = tc then true
  else
    -- We ignore displayname
    (mem self).typeId == (mem tc).typeId && (mem self).isAutoDetected == (mem tc).isAutoDetected

/-- `ToolChain::toMap` (lines 209-219). -/
def toMap (tc : ToolChain) : QVariantMap :=
  let result : QVariantMap := []
  let idToSave : QString := tc.d.m_typeId.toString ++ [':'] ++ QString.fromUtf8 tc.id
  let result := QVariantMap.insert result ID_KEY (QVariant.string idToSave)
  let result := QVariantMap.insert result DISPLAY_NAME_KEY (QVariant.string tc.displayName)
  let result := QVariantMap.insert result AUTODETECT_KEY (QVariant.bool tc.isAutoDetected)
  let result := QVariantMap.insert result LANGUAGE_KEY (QVariant.int tc.language.toInt)
  result

/-- `ToolChain::fromMap` (lines 240-262): the object afterwards and the
returned flag. -/
def fromMap (tc : ToolChain) (data : QVariantMap) : ToolChain × Bool :=
  let tc := { tc with d := { tc.d with
    m_displayName := (QVariantMap.value data DISPLAY_NAME_KEY).toString } }
  -- make sure we have new style ids:
  let id : QString := (QVariantMap.value data ID_KEY).toString
  let pos : Int := QString.indexOf id ':'
  if ¬ (pos > 0) then (tc, false)
  else
    let tc := { tc with d := { tc.d with m_typeId := Core.Id.fromString (QString.left id pos) } }
    let tc := { tc with d := { tc.d with m_id := QString.toUtf8 (QString.mid id (pos + 1) (-1)) } }
    let autoDetect : Bool := (QVariantMap.valueOr data AUTODETECT_KEY (QVariant.bool false)).toBool
    let tc := { tc with d := { tc.d with
      m_detection :=
        if autoDetect then Detection.AutoDetectionFromSettings else Detection.ManualDetection } }
    let r := (QVariantMap.valueOr data LANGUAGE_KEY (QVariant.int Language.Cxx.toInt)).toInt
    let tc := { tc with d := { tc.d with m_language := Language.ofInt r.1 } }
    let tc := if ¬ r.2 then { tc with d := { tc.d with m_language := Language.Cxx } } else tc
    (tc, true)

end ToolChain

namespace ToolChainFactory

/-- The helper `rawIdData` (lines 323-329). -/
def rawIdData (data : QVariantMap) : QString × QString :=
  let raw : QString := (QVariantMap.value data ID_KEY).toString
  let pos : Int := QString.indexOf raw ':'
  if ¬ (pos > 0) then ("unknown".toList, "unknown".toList)
  else (QString.mid raw 0 pos, QString.mid raw (pos + 1) (-1))

/-- `ToolChainFactory::idFromMap` (lines 331-334). -/
def idFromMap (data : QVariantMap) : QByteArray := QString.toUtf8 (rawIdData data).2

/-- `ToolChainFactory::typeIdFromMap` (lines 336-339). -/
def typeIdFromMap (data : QVariantMap) : Core.Id := Core.Id.fromString (rawIdData data).1

/-- `ToolChainFactory::autoDetectionToMap` (lines 341-344). -/
def autoDetectionToMap (data : QVariantMap) (detected : Bool) : QVariantMap :=
  QVariantMap.insert data AUTODETECT_KEY (QVariant.bool detected)

end ToolChainFactory

end ProjectExplorer

/-! ## Example objects -/

namespace ProjectExplorer

/-- A manually added C tool chain of kind "gcc", instance "abc123", of a
concrete class whose type display name is "GCC". -/
def gccManual : ToolChain :=
  ((ToolChain.new (QString.toUtf8 "abc123".toList) "GCC".toList
    (Core.Id.fromString "gcc".toList) Detection.ManualDetection).setLanguage Language.C ⟨0⟩).1

/-- A manually added C tool chain of kind "gcc", instance "abc123", of a
concrete class whose `typeDisplayName()` returns the empty string. -/
def gccUnnamed : ToolChain :=
  ((ToolChain.new (QString.toUtf8 "abc123".toList) []
    (Core.Id.fromString "gcc".toList) Detection.ManualDetection).setLanguage Language.C ⟨0⟩).1

/-- A second manually added tool chain of kind "gcc": another instance id,
another language, and the configured name "My compiler". -/
def gccRenamed : ToolChain :=
  (((ToolChain.new (QString.toUtf8 "zzz".toList) "GCC".toList
    (Core.Id.fromString "gcc".toList) Detection.ManualDetection).setLanguage Language.Cxx ⟨0⟩).1
      |>.setDisplayName "My compiler".toList ⟨0⟩).1

/-- A manually added C tool chain of kind "gcc" whose instance id is the
UTF-8 form of the three characters `a`, U+0000, `b`. -/
def gccNulId : ToolChain :=
  ((ToolChain.new (QString.toUtf8 ['a', Char.ofNat 0, 'b']) "GCC".toList
    (Core.Id.fromString "gcc".toList) Detection.ManualDetection).setLanguage Language.C ⟨0⟩).1

/-- A manually added C tool chain of kind "gcc" whose instance id is the
UTF-8 form of the two characters U+FEFF, `x`. -/
def gccBomId : ToolChain :=
  ((ToolChain.new (QString.toUtf8 [Char.ofNat 0xFEFF, 'x']) "GCC".toList
    (Core.Id.fromString "gcc".toList) Detection.ManualDetection).setLanguage Language.C ⟨0⟩).1

/-- A freshly constructed tool chain of kind "msvc", instance "xyz", of a
concrete class whose type display name is "MSVC". -/
def msvcFresh : ToolChain :=
  ToolChain.new (QString.toUtf8 "xyz".toList) "MSVC".toList
    (Core.Id.fromString "msvc".toList) Detection.AutoDetection

/-- A persisted map holding only the composite id `id`. -/
def idOnly (id : QString) : QVariantMap :=
  QVariantMap.insert [] ID_KEY (QVariant.string id)

end ProjectExplorer

/-! ## Lemmas on the Qt model -/

theorem char_toNat_valid (c : Char) :
    c.toNat < 0xD800 ∨ (0xDFFF < c.toNat ∧ c.toNat < 0x110000) := by
  have h := c.valid
  simpa [Char.toNat, UInt32.isValidChar, Nat.isValidChar] using h

theorem indexOf_ge_neg_one (s : QString) (c : Char) : -1 ≤ QString.indexOf s c := by
  induction s with
  | nil => simp [QString.indexOf]
  | cons x xs ih =>
    simp only [QString.indexOf]
    split
    · omega
    · split <;> omega

theorem indexOf_of_not_mem (s : QString) (c : Char) (h : c ∉ s) : QString.indexOf s c = -1 := by
  induction s with
  | nil => simp [QString.indexOf]
  | cons x xs ih =>
    have hx : ¬ x = c := fun e => h (by simp [e])
    have hxs : c ∉ xs := fun e => h (by simp [e])
    simp [QString.indexOf, hx, ih hxs]

theorem indexOf_nonneg_of_mem (s : QString) (c : Char) (h : c ∈ s) :
    0 ≤ QString.indexOf s c := by
  induction s with
  | nil => simp at h
  | cons x xs ih =>
    by_cases hx : x = c
    · simp [QString.indexOf, hx]
    · have hmem : c ∈ xs := by
        rcases List.mem_cons.mp h with e | e
        · exact absurd e.symm hx
        · exact e
      have := ih hmem
      have hlt : ¬ (QString.indexOf xs c < 0) := by omega
      simp only [QString.indexOf, hx, if_false, hlt]
      omega

theorem split_at_index (s : QString) (p : Nat) (c : Char) (h : s[p]? = some c) :
    s = s.take p ++ c :: s.drop (p + 1) := by
  induction s generalizing p with
  | nil => simp at h
  | cons x xs ih =>
    cases p with
    | zero =>
      simp only [List.getElem?_cons_zero, Option.some.injEq] at h
      simp [h]
    | succ q =>
      simp only [List.getElem?_cons_succ] at h
      have := ih q h
      simp only [List.take_succ_cons, List.drop_succ_cons, List.cons_append]
      rw [← this]

theorem not_mem_take_of_first (s : QString) (p : Nat) (c : Char)
    (h : ∀ i, i < p → s[i]? ≠ some c) : c ∉ s.take p := by
  induction s generalizing p with
  | nil => simp
  | cons x xs ih =>
    cases p with
    | zero => simp
    | succ q =>
      have h0 := h 0 (Nat.succ_pos q)
      simp only [List.getElem?_cons_zero, ne_eq, Option.some.injEq] at h0
      have hrest : ∀ i, i < q → xs[i]? ≠ some c := by
        intro i hi
        have := h (i + 1) (Nat.succ_lt_succ hi)
        simpa using this
      have := ih q hrest
      simp only [List.take_succ_cons, List.mem_cons, not_or]
      exact ⟨fun e => h0 e.symm, this⟩

theorem indexOf_append_cons (pre suf : QString) (c : Char) (h : c ∉ pre) :
    QString.indexOf (pre ++ c :: suf) c = (pre.length : Int) := by
  induction pre with
  | nil => simp [QString.indexOf]
  | cons x xs ih =>
    have hx : ¬ x = c := fun e => h (by simp [e])
    have hxs : c ∉ xs := fun e => h (by simp [e])
    have hi := ih hxs
    have hnn : ¬ ((xs.length : Int) < 0) := by omega
    rw [List.cons_append]
    simp only [QString.indexOf, hx, if_false]
    rw [hi]
    simp [hnn]

/-- A non-negative result of `indexOf` splits the string at the first
occurrence of the character. -/
theorem indexOf_split (s : QString) (c : Char) (h : 0 ≤ QString.indexOf s c) :
    ∃ pre suf, s = pre ++ c :: suf ∧ c ∉ pre ∧ QString.indexOf s c = (pre.length : Int) := by
  induction s with
  | nil => simp [QString.indexOf] at h
  | cons x xs ih =>
    by_cases hx : x = c
    · exact ⟨[], xs, by simp [hx], by simp, by simp [QString.indexOf, hx]⟩
    · have hr : 0 ≤ QString.indexOf xs c := by
        by_contra hneg
        have hlt : QString.indexOf xs c < 0 := by omega
        simp [QString.indexOf, hx, hlt] at h
      obtain ⟨pre, suf, hs, hp, hi⟩ := ih hr
      refine ⟨x :: pre, suf, by simp [hs], ?_, ?_⟩
      · intro hmem
        rcases List.mem_cons.mp hmem with e | e
        · exact hx e.symm
        · exact hp e
      · have hnn : ¬ (QString.indexOf xs c < 0) := by omega
        simp only [QString.indexOf, hx, if_false, hnn, List.length_cons]
        rw [hi]
        push_cast
        rfl

theorem left_append_cons (pre suf : QString) (c : Char) :
    QString.left (pre ++ c :: suf) (pre.length : Int) = pre := by
  have h : ¬ ((pre.length : Int) < 0 ∨ (((pre ++ c :: suf).length : Nat) : Int) ≤ pre.length) := by
    simp only [List.length_append, List.length_cons]
    push_cast
    omega
  simp [QString.left, h]

theorem mid_zero_append_cons (pre suf : QString) (c : Char) :
    QString.mid (pre ++ c :: suf) 0 (pre.length : Int) = pre := by
  unfold QString.mid
  simp only [List.length_append, List.length_cons]
  push_cast
  have h1 : ¬ ((pre.length : Int) + ((suf.length : Int) + 1) < 0) := by omega
  have h3 : ¬ ((pre.length : Int) < 0 ∨ (suf.length : Int) + 1 < 0) := by omega
  simp [h1, h3]

theorem mid_succ_append_cons (pre suf : QString) (c : Char) :
    QString.mid (pre ++ c :: suf) ((pre.length : Int) + 1) (-1) = suf := by
  unfold QString.mid
  simp only [List.length_append, List.length_cons]
  have h1 : ¬ (((pre.length + (suf.length + 1) : Nat) : Int) < (pre.length : Int) + 1) := by
    push_cast
    omega
  have h2 : ¬ ((pre.length : Int) + 1 < 0) := by omega
  have h4 : ((pre.length : Int) + 1).toNat = pre.length + 1 := by omega
  simp [h1, h2, h4]

theorem utf8DecodeChar_encode (c : Char) (tail : QByteArray) :
    ∃ b0 rest, utf8EncodeChar c ++ tail = b0 :: rest ∧ utf8DecodeChar b0 rest = (c, tail) := by
  have hv := char_toNat_valid c
  have hc : Char.ofNat c.toNat = c := Char.ofNat_toNat c
  generalize hn : c.toNat = n at hv hc
  unfold utf8EncodeChar
  simp only [hn]
  by_cases h1 : n < 0x80
  · refine ⟨n, tail, by simp [h1], ?_⟩
    simp [utf8DecodeChar, h1, hc]
  · by_cases h2 : n < 0x800
    · refine ⟨0xC0 + n / 64, (0x80 + n % 64) :: tail, by simp [h1, h2], ?_⟩
      have e : (0xC0 + n / 64 - 0xC0) * 64 + (0x80 + n % 64 - 0x80) = n := by omega
      have a1 : ¬ (0xC0 + n / 64 < 0x80) := by omega
      have a2 : 0xC0 + n / 64 < 0xE0 := by omega
      have a3 : 0x80 + n % 64 < 0xC0 := by omega
      have a4 : 0x80 ≤ n := by omega
      simp only [utf8DecodeChar, isContinuation, e, hc]
      simp [a1, a2, a3, a4]
    · by_cases h3 : n < 0x10000
      · refine ⟨0xE0 + n / 4096, (0x80 + n / 64 % 64) :: (0x80 + n % 64) :: tail,
          by simp [h1, h2, h3], ?_⟩
        have e : (0xE0 + n / 4096 - 0xE0) * 4096 + (0x80 + n / 64 % 64 - 0x80) * 64
            + (0x80 + n % 64 - 0x80) = n := by omega
        have a1 : ¬ (0xE0 + n / 4096 < 0x80) := by omega
        have a2 : ¬ (0xE0 + n / 4096 < 0xE0) := by omega
        have a3 : 0xE0 + n / 4096 < 0xF0 := by omega
        have a4 : 0x80 + n / 64 % 64 < 0xC0 := by omega
        have a5 : 0x80 + n % 64 < 0xC0 := by omega
        have a6 : 0x800 ≤ n := by omega
        have a7 : n.isValidChar := by
          unfold Nat.isValidChar
          omega
        simp only [utf8DecodeChar, isContinuation, e, hc]
        simp [a1, a2, a3, a4, a5, a6, a7]
      · refine ⟨0xF0 + n / 262144,
          (0x80 + n / 4096 % 64) :: (0x80 + n / 64 % 64) :: (0x80 + n % 64) :: tail,
          by simp [h1, h2, h3], ?_⟩
        have e : (0xF0 + n / 262144 - 0xF0) * 262144 + (0x80 + n / 4096 % 64 - 0x80) * 4096
            + (0x80 + n / 64 % 64 - 0x80) * 64 + (0x80 + n % 64 - 0x80) = n := by omega
        have a1 : ¬ (0xF0 + n / 262144 < 0x80) := by omega
        have a2 : ¬ (0xF0 + n / 262144 < 0xE0) := by omega
        have a3 : ¬ (0xF0 + n / 262144 < 0xF0) := by omega
        have a3b : 0xF0 + n / 262144 < 0xF8 := by omega
        have a4 : 0x80 + n / 4096 % 64 < 0xC0 := by omega
        have a4b : 0x80 + n / 64 % 64 < 0xC0 := by omega
        have a5 : 0x80 + n % 64 < 0xC0 := by omega
        have a6 : 0x10000 ≤ n := by omega
        have a7 : n.isValidChar := by
          unfold Nat.isValidChar
          omega
        simp only [utf8DecodeChar, isContinuation, e, hc]
        simp [a1, a2, a3, a3b, a4, a4b, a5, a6, a7]

theorem utf8EncodeChar_length_pos (c : Char) : 0 < (utf8EncodeChar c).length := by
  unfold utf8EncodeChar
  simp only []
  split
  · simp
  · split
    · simp
    · split <;> simp

theorem fromUtf8Loop_toUtf8 (s : QString) :
    ∀ fuel, s.length ≤ fuel → fromUtf8Loop fuel (QString.toUtf8 s) = s := by
  induction s with
  | nil => intro fuel _; cases fuel <;> simp [QString.toUtf8, fromUtf8Loop]
  | cons c cs ih =>
    intro fuel hf
    obtain ⟨b0, rest, he, hd⟩ := utf8DecodeChar_encode c (QString.toUtf8 cs)
    cases fuel with
    | zero => simp at hf
    | succ k =>
      simp only [QString.toUtf8, he, fromUtf8Loop, hd]
      rw [ih k (by simpa using hf)]

theorem toUtf8_length_ge (s : QString) : s.length ≤ (QString.toUtf8 s).length := by
  induction s with
  | nil => simp [QString.toUtf8]
  | cons c cs ih =>
    have := utf8EncodeChar_length_pos c
    simp only [QString.toUtf8, List.length_cons, List.length_append]
    omega

theorem utf8EncodeChar_ne_zero (c : Char) (hc : c ≠ Char.ofNat 0) :
    ∀ b ∈ utf8EncodeChar c, b ≠ 0 := by
  have hn : c.toNat ≠ 0 := by
    intro h0
    apply hc
    rw [← Char.ofNat_toNat c, h0]
  intro b hb
  unfold utf8EncodeChar at hb
  simp only [] at hb
  split at hb
  · simp at hb
    omega
  · split at hb
    · simp at hb
      omega
    · split at hb <;> (simp at hb; omega)

theorem toUtf8_ne_zero (s : QString) (hs : Char.ofNat 0 ∉ s) :
    ∀ b ∈ QString.toUtf8 s, b ≠ 0 := by
  induction s with
  | nil => simp [QString.toUtf8]
  | cons c cs ih =>
    intro b hb
    simp only [QString.toUtf8, List.mem_append] at hb
    have hc : c ≠ Char.ofNat 0 := fun e => hs (by simp [e])
    have hcs : Char.ofNat 0 ∉ cs := fun e => hs (by simp [e])
    rcases hb with hb | hb
    · exact utf8EncodeChar_ne_zero c hc b hb
    · exact ih hcs b hb

theorem untilNul_toUtf8 (s : QString) (hs : Char.ofNat 0 ∉ s) :
    untilNul (QString.toUtf8 s) = QString.toUtf8 s := by
  have h := toUtf8_ne_zero s hs
  generalize QString.toUtf8 s = l at h
  unfold untilNul
  induction l with
  | nil => rfl
  | cons x xs ih =>
    have hx : x ≠ 0 := h x (by simp)
    have hxs : ∀ b ∈ xs, b ≠ 0 := fun b hb => h b (by simp [hb])
    have hb : (x != 0) = true := by simp [hx]
    rw [List.takeWhile, hb]
    simp only []
    rw [ih hxs]

theorem skipUtf8Bom_toUtf8 (s : QString) (hs : s.head? ≠ some (Char.ofNat 0xFEFF)) :
    skipUtf8Bom (QString.toUtf8 s) = QString.toUtf8 s := by
  unfold skipUtf8Bom
  cases s with
  | nil => simp [QString.toUtf8]
  | cons c cs =>
    have hc : c ≠ Char.ofNat 0xFEFF := by
      intro e
      apply hs
      simp [e]
    have hn : c.toNat ≠ 0xFEFF := by
      intro h0
      apply hc
      rw [← Char.ofNat_toNat c, h0]
    have hne : ¬ ((QString.toUtf8 (c :: cs)).take 3 = [0xEF, 0xBB, 0xBF]) := by
      simp only [QString.toUtf8]
      unfold utf8EncodeChar
      simp only []
      split
      · intro h
        have h0 := congrArg List.head? h
        simp at h0
        omega
      · split
        · intro h
          have h0 := congrArg List.head? h
          simp at h0
          omega
        · split
          · intro h
            simp at h
            omega
          · intro h
            simp at h
            omega
    rw [if_neg hne]

/-- Decoding the UTF-8 encoding of a text gives the text back, provided the
text has no NUL character and does not begin with the byte-order mark. -/
theorem fromUtf8_toUtf8 (s : QString) (hnul : Char.ofNat 0 ∉ s)
    (hbom : s.head? ≠ some (Char.ofNat 0xFEFF)) :
    QString.fromUtf8 (QString.toUtf8 s) = s := by
  unfold QString.fromUtf8
  rw [untilNul_toUtf8 s hnul, skipUtf8Bom_toUtf8 s hbom]
  exact fromUtf8Loop_toUtf8 s _ (toUtf8_length_ge s)

theorem find_insert (m : QVariantMap) (k k2 : QString) (v : QVariant) :
    QVariantMap.find (QVariantMap.insert m k v) k2
      = if k = k2 then some v else QVariantMap.find m k2 := by
  induction m with
  | nil => simp [QVariantMap.insert, QVariantMap.find]
  | cons p m ih =>
    obtain ⟨k1, w⟩ := p
    by_cases h1 : k1 = k
    · subst h1
      by_cases h2 : k1 = k2 <;> simp [QVariantMap.insert, QVariantMap.find, h2]
    · by_cases h2 : k = k2
      · subst h2
        simp [QVariantMap.insert, QVariantMap.find, h1, ih]
      · by_cases h3 : k1 = k2
        · subst h3
          simp [QVariantMap.insert, QVariantMap.find, h1, h2]
        · simp [QVariantMap.insert, QVariantMap.find, h1, h2, h3, ih]

namespace ProjectExplorer

/-! ## Lemmas on the descriptor -/

theorem keys_distinct :
    ID_KEY ≠ DISPLAY_NAME_KEY ∧ ID_KEY ≠ AUTODETECT_KEY ∧ ID_KEY ≠ LANGUAGE_KEY
      ∧ DISPLAY_NAME_KEY ≠ AUTODETECT_KEY ∧ DISPLAY_NAME_KEY ≠ LANGUAGE_KEY
      ∧ AUTODETECT_KEY ≠ LANGUAGE_KEY := by
  decide

/-- The four bindings of `toMap`. -/
theorem toMap_find (tc : ToolChain) :
    QVariantMap.find tc.toMap ID_KEY
        = some (QVariant.string (tc.d.m_typeId.toString ++ [':'] ++ QString.fromUtf8 tc.id))
      ∧ QVariantMap.find tc.toMap DISPLAY_NAME_KEY = some (QVariant.string tc.displayName)
      ∧ QVariantMap.find tc.toMap AUTODETECT_KEY = some (QVariant.bool tc.isAutoDetected)
      ∧ QVariantMap.find tc.toMap LANGUAGE_KEY = some (QVariant.int tc.language.toInt) := by
  obtain ⟨h1, h2, h3, h4, h5, h6⟩ := keys_distinct
  simp only [ToolChain.toMap, find_insert]
  simp [h1, h2, h3, h4, h5, h6, h1.symm, h2.symm, h3.symm, h4.symm, h5.symm, h6.symm]

/-- A successful `fromMap`, field by field: the composite id splits at its
first `':'` into a non-empty type part `pre` and the instance part `suf`. -/
theorem fromMap_of_split (tc : ToolChain) (data : QVariantMap) (pre suf : QString)
    (hid : (QVariantMap.value data ID_KEY).toString = pre ++ ':' :: suf)
    (hpre : ':' ∉ pre) (hne : pre ≠ []) :
    tc.fromMap data =
      ({ tc with d :=
          { m_id := QString.toUtf8 suf
            m_supportedLanguages := tc.d.m_supportedLanguages
            m_displayName := (QVariantMap.value data DISPLAY_NAME_KEY).toString
            m_typeId := Core.Id.fromString pre
            m_language :=
              if (QVariantMap.valueOr data LANGUAGE_KEY (QVariant.int Language.Cxx.toInt)).toInt.2
              then Language.ofInt
                (QVariantMap.valueOr data LANGUAGE_KEY (QVariant.int Language.Cxx.toInt)).toInt.1
              else Language.Cxx
            m_detection :=
              if (QVariantMap.valueOr data AUTODETECT_KEY (QVariant.bool false)).toBool
              then Detection.AutoDetectionFromSettings else Detection.ManualDetection } },
        true) := by
  have hpos : QString.indexOf (pre ++ ':' :: suf) ':' = (pre.length : Int) :=
    indexOf_append_cons pre suf ':' hpre
  have hlen : 0 < pre.length := List.length_pos.mpr hne
  have hgt : (pre.length : Int) > 0 := by omega
  have hl := left_append_cons pre suf ':'
  have hm := mid_succ_append_cons pre suf ':'
  unfold ToolChain.fromMap
  simp only [hid, hpos, hgt, not_true_eq_false, if_false, hl, hm]
  cases (QVariantMap.valueOr data LANGUAGE_KEY (QVariant.int Language.Cxx.toInt)).toInt.2 <;> simp

theorem fromMap_of_not_pos (tc : ToolChain) (data : QVariantMap)
    (h : ¬ (QString.indexOf (QVariantMap.value data ID_KEY).toString ':' > 0)) :
    tc.fromMap data
      = ({ tc with d := { tc.d with
            m_displayName := (QVariantMap.value data DISPLAY_NAME_KEY).toString } }, false) := by
  unfold ToolChain.fromMap
  simp only [h, not_false_eq_true, if_true]

/-- The two exits of `fromMap`: the assertion on the position of the first
`':'` fails and only the stored display name has been overwritten, or the id
splits and every field is populated. -/
theorem fromMap_cases (tc : ToolChain) (data : QVariantMap) :
    (¬ (QString.indexOf (QVariantMap.value data ID_KEY).toString ':' > 0)
        ∧ tc.fromMap data
          = ({ tc with d := { tc.d with
                m_displayName := (QVariantMap.value data DISPLAY_NAME_KEY).toString } }, false))
      ∨ (∃ pre suf, (QVariantMap.value data ID_KEY).toString = pre ++ ':' :: suf
          ∧ ':' ∉ pre ∧ pre ≠ []
          ∧ tc.fromMap data =
            ({ tc with d :=
                { m_id := QString.toUtf8 suf
                  m_supportedLanguages := tc.d.m_supportedLanguages
                  m_displayName := (QVariantMap.value data DISPLAY_NAME_KEY).toString
                  m_typeId := Core.Id.fromString pre
                  m_language :=
                    if (QVariantMap.valueOr data LANGUAGE_KEY
                        (QVariant.int Language.Cxx.toInt)).toInt.2
                    then Language.ofInt (QVariantMap.valueOr data LANGUAGE_KEY
                        (QVariant.int Language.Cxx.toInt)).toInt.1
                    else Language.Cxx
                  m_detection :=
                    if (QVariantMap.valueOr data AUTODETECT_KEY (QVariant.bool false)).toBool
                    then Detection.AutoDetectionFromSettings
                    else Detection.ManualDetection } },
              true)) := by
  by_cases hpos : QString.indexOf (QVariantMap.value data ID_KEY).toString ':' > 0
  · right
    obtain ⟨pre, suf, hsplit, hpre, hlen⟩ :=
      indexOf_split (QVariantMap.value data ID_KEY).toString ':' (by omega)
    have hne : pre ≠ [] := by
      intro e
      rw [hlen, e] at hpos
      simp at hpos
    exact ⟨pre, suf, hsplit, hpre, hne, fromMap_of_split tc data pre suf hsplit hpre hne⟩
  · left
    exact ⟨hpos, fromMap_of_not_pos tc data hpos⟩

/-! ## The claims -/

/-- C1 (as written, refuted), at three descriptors for which all premises of
the round-trip law hold.  First: a descriptor of a concrete class whose type
display name is empty and that has no configured name persists the empty
name; restoring that map into a descriptor of a class with the type display
name "MSVC" succeeds, but `displayName()` is then "MSVC", not the empty name
of the original.  Second: for the instance id `a`, U+0000, `b` the composite
id written by `toMap` is "gcc:a", because the conversion of the id stops at
the NUL byte, and the restored instance id is `a`.  Third: for the instance id
U+FEFF, `x` the conversion skips the byte-order mark, `toMap` writes "gcc:x"
and the restored instance id is `x`. -/
theorem roundTrip_counterexample :
    (gccUnnamed.typeId.toString ≠ [] ∧ ':' ∉ gccUnnamed.typeId.toString
        ∧ gccUnnamed.id = QString.toUtf8 "abc123".toList
        ∧ gccUnnamed.language = Language.C
        ∧ gccUnnamed.detection = Detection.ManualDetection
        ∧ (msvcFresh.fromMap gccUnnamed.toMap).2 = true
        ∧ gccUnnamed.displayName = []
        ∧ (msvcFresh.fromMap gccUnnamed.toMap).1.displayName = "MSVC".toList
        ∧ (msvcFresh.fromMap gccUnnamed.toMap).1.displayName ≠ gccUnnamed.displayName)
      ∧ (gccNulId.typeId.toString ≠ [] ∧ ':' ∉ gccNulId.typeId.toString
        ∧ gccNulId.id = QString.toUtf8 ['a', Char.ofNat 0, 'b']
        ∧ gccNulId.language = Language.C
        ∧ gccNulId.detection = Detection.ManualDetection
        ∧ QVariantMap.value gccNulId.toMap ID_KEY = QVariant.string "gcc:a".toList
        ∧ (msvcFresh.fromMap gccNulId.toMap).2 = true
        ∧ (msvcFresh.fromMap gccNulId.toMap).1.id = QString.toUtf8 "a".toList
        ∧ (msvcFresh.fromMap gccNulId.toMap).1.id ≠ gccNulId.id)
      ∧ (gccBomId.typeId.toString ≠ [] ∧ ':' ∉ gccBomId.typeId.toString
        ∧ gccBomId.id = QString.toUtf8 [Char.ofNat 0xFEFF, 'x']
        ∧ gccBomId.language = Language.C
        ∧ gccBomId.detection = Detection.ManualDetection
        ∧ QVariantMap.value gccBomId.toMap ID_KEY = QVariant.string "gcc:x".toList
        ∧ (msvcFresh.fromMap gccBomId.toMap).2 = true
        ∧ (msvcFresh.fromMap gccBomId.toMap).1.id = QString.toUtf8 "x".toList
        ∧ (msvcFresh.fromMap gccBomId.toMap).1.id ≠ gccBomId.id) := by
  decide

/-- C1 (amended): round-trip law.  For every descriptor `d` whose type id is
non-empty and contains no `':'`, whose instance id is the UTF-8 form of a text
`s` that contains no NUL character and does not begin with the byte-order
mark U+FEFF, with language C or Cxx and detection manual or from settings,
`fromMap(toMap(d))` on any descriptor `t` returns true and leaves `t` with
the type id, instance id, auto-detection flag and language of `d` and with
`d.displayName()` as its stored display name; `displayName()` of `t` equals
that of `d` whenever the latter is non-empty or both descriptors have the same
type display name. -/
theorem fromMap_toMap_roundTrip (d t : ToolChain) (s : QString)
    (hvalid : d.typeId.toString ≠ []) (hsep : ':' ∉ d.typeId.toString)
    (hid : d.id = QString.toUtf8 s)
    (hnul : Char.ofNat 0 ∉ s) (hbom : s.head? ≠ some (Char.ofNat 0xFEFF))
    (hlang : d.language = Language.C ∨ d.language = Language.Cxx)
    (hdet : d.detection = Detection.ManualDetection
      ∨ d.detection = Detection.AutoDetectionFromSettings) :
    (t.fromMap d.toMap).2 = true
      ∧ (t.fromMap d.toMap).1.typeId = d.typeId
      ∧ (t.fromMap d.toMap).1.id = d.id
      ∧ (t.fromMap d.toMap).1.d.m_displayName = d.displayName
      ∧ (d.displayName ≠ [] ∨ t.typeDisplayName = d.typeDisplayName →
          (t.fromMap d.toMap).1.displayName = d.displayName)
      ∧ (t.fromMap d.toMap).1.isAutoDetected = d.isAutoDetected
      ∧ (t.fromMap d.toMap).1.language = d.language := by
  obtain ⟨f1, f2, f3, f4⟩ := toMap_find d
  have hidv : (QVariantMap.value d.toMap ID_KEY).toString = d.typeId.toString ++ ':' :: s := by
    simp [QVariantMap.value, QVariantMap.valueOr, f1, QVariant.toString, hid,
      fromUtf8_toUtf8 s hnul hbom, ToolChain.typeId]
  have hdn : (QVariantMap.value d.toMap DISPLAY_NAME_KEY).toString = d.displayName := by
    simp [QVariantMap.value, QVariantMap.valueOr, f2, QVariant.toString]
  have hauto : (QVariantMap.valueOr d.toMap AUTODETECT_KEY (QVariant.bool false)).toBool
      = d.isAutoDetected := by
    simp [QVariantMap.valueOr, f3, QVariant.toBool]
  have hl : (QVariantMap.valueOr d.toMap LANGUAGE_KEY (QVariant.int Language.Cxx.toInt)).toInt
      = (d.language.toInt, true) := by
    simp [QVariantMap.valueOr, f4, QVariant.toInt]
  rw [fromMap_of_split t d.toMap d.typeId.toString s hidv hsep hvalid]
  rw [hdn, hauto, hl]
  refine ⟨rfl, rfl, hid.symm, rfl, ?_, ?_, by simp [ToolChain.language, Language.ofInt,
    Language.toInt]⟩
  · obtain ⟨⟨i0, sl, dn, ty, lang, det⟩, tn⟩ := d
    obtain ⟨td, ttn⟩ := t
    cases dn <;> cases tn <;> simp [ToolChain.displayName, QString.isEmpty]
  · obtain ⟨⟨i0, sl, dn, ty, lang, det⟩, tn⟩ := d
    cases det <;> simp [ToolChain.isAutoDetected, ToolChain.detection]

/-- C1 (amended), applied: the "gcc" descriptor with type display name "GCC"
restored into the fresh "msvc" descriptor. -/
theorem fromMap_toMap_roundTrip_witness :
    (msvcFresh.fromMap gccManual.toMap).2 = true
      ∧ (msvcFresh.fromMap gccManual.toMap).1.typeId = gccManual.typeId
      ∧ (msvcFresh.fromMap gccManual.toMap).1.id = gccManual.id
      ∧ (msvcFresh.fromMap gccManual.toMap).1.d.m_displayName = gccManual.displayName
      ∧ (gccManual.displayName ≠ [] ∨ msvcFresh.typeDisplayName = gccManual.typeDisplayName →
          (msvcFresh.fromMap gccManual.toMap).1.displayName = gccManual.displayName)
      ∧ (msvcFresh.fromMap gccManual.toMap).1.isAutoDetected = gccManual.isAutoDetected
      ∧ (msvcFresh.fromMap gccManual.toMap).1.language = gccManual.language :=
  fromMap_toMap_roundTrip gccManual msvcFresh "abc123".toList (by decide) (by decide)
    (by decide) (by decide) (by decide) (Or.inl (by decide)) (Or.inl (by decide))

/-- C2: `fromMap(data)` always returns, and it returns false exactly when the
string stored under `ProjectExplorer.ToolChain.Id` contains no `':'` or starts
with `':'` (empty type portion); an absent id key is read as the empty string
and so gives false; every other data gives true. -/
theorem fromMap_false_iff (tc : ToolChain) (data : QVariantMap) :
    ((tc.fromMap data).2 = false ↔
        (':' ∉ (QVariantMap.value data ID_KEY).toString
          ∨ (QVariantMap.value data ID_KEY).toString.head? = some ':'))
      ∧ ((tc.fromMap data).2 = true ↔
        ¬ (':' ∉ (QVariantMap.value data ID_KEY).toString
          ∨ (QVariantMap.value data ID_KEY).toString.head? = some ':'))
      ∧ (QVariantMap.contains data ID_KEY = false →
          (QVariantMap.value data ID_KEY).toString = [] ∧ (tc.fromMap data).2 = false) := by
  have key : (tc.fromMap data).2 = false ↔
      (':' ∉ (QVariantMap.value data ID_KEY).toString
        ∨ (QVariantMap.value data ID_KEY).toString.head? = some ':') := by
    generalize hs : (QVariantMap.value data ID_KEY).toString = s
    by_cases hpos : QString.indexOf s ':' > 0
    · obtain ⟨pre, suf, hsplit, hpre, hlen⟩ := indexOf_split s ':' (by omega)
      have hne : pre ≠ [] := by
        intro e
        rw [hlen, e] at hpos
        simp at hpos
      rw [fromMap_of_split tc data pre suf (hs.trans hsplit) hpre hne]
      constructor
      · intro h
        cases h
      · rintro (h | h)
        · exact absurd (by simp [hsplit]) h
        · cases pre with
          | nil => exact absurd rfl hne
          | cons x xs =>
            simp only [hsplit, List.cons_append, List.head?_cons, Option.some.injEq] at h
            exact absurd (by simp [h]) hpre
    · rw [fromMap_of_not_pos tc data (by rw [hs]; exact hpos)]
      constructor
      · intro _
        by_cases hmem : ':' ∈ s
        · right
          by_cases hnn : 0 ≤ QString.indexOf s ':'
          · obtain ⟨pre, suf, hsplit, hpre, hlen⟩ := indexOf_split s ':' hnn
            have h0 : pre.length = 0 := by
              rw [hlen] at hpos
              omega
            have hnil : pre = [] := List.length_eq_zero.mp h0
            simp [hsplit, hnil]
          · exact absurd (indexOf_nonneg_of_mem s ':' hmem) hnn
        · left
          exact hmem
      · intro _
        rfl
  refine ⟨key, ?_, ?_⟩
  · rw [← key]
    cases (tc.fromMap data).2 <;> simp
  · intro hc
    have hnone : QVariantMap.find data ID_KEY = none := by
      simpa [QVariantMap.contains] using hc
    have hv : (QVariantMap.value data ID_KEY).toString = [] := by
      simp [QVariantMap.value, QVariantMap.valueOr, hnone, QVariant.toString]
    refine ⟨hv, key.mpr (Or.inl ?_)⟩
    rw [hv]
    simp

/-- C3: when the persisted id string has its first `':'` at an index
`p > 0`, `typeIdFromMap` is the id named by the `p` characters before it and
`idFromMap` is the (UTF-8) text after it; when the id string has no `':'`,
both helpers give the fallback "unknown". -/
theorem typeIdFromMap_idFromMap (data : QVariantMap) (p : Nat) :
    (0 < p → (QVariantMap.value data ID_KEY).toString[p]? = some ':' →
        (∀ i, i < p → (QVariantMap.value data ID_KEY).toString[i]? ≠ some ':') →
        ToolChainFactory.typeIdFromMap data
            = Core.Id.fromString ((QVariantMap.value data ID_KEY).toString.take p)
          ∧ ToolChainFactory.idFromMap data
            = QString.toUtf8 ((QVariantMap.value data ID_KEY).toString.drop (p + 1)))
      ∧ (':' ∉ (QVariantMap.value data ID_KEY).toString →
        ToolChainFactory.typeIdFromMap data = Core.Id.fromString "unknown".toList
          ∧ ToolChainFactory.idFromMap data = QString.toUtf8 "unknown".toList) := by
  generalize hs : (QVariantMap.value data ID_KEY).toString = s
  constructor
  · intro hp hc hfirst
    have hsplit := split_at_index s p ':' hc
    have hpre := not_mem_take_of_first s p ':' hfirst
    have hlen : (s.take p).length = p := by
      have : p < s.length := by
        by_contra hge
        have : s[p]? = none := List.getElem?_eq_none (by omega)
        rw [this] at hc
        cases hc
      simp [List.length_take]
      omega
    have hidx : QString.indexOf s ':' = (p : Int) := by
      have := indexOf_append_cons (s.take p) (s.drop (p + 1)) ':' hpre
      rw [← hsplit, hlen] at this
      exact this
    have hgt : (p : Int) > 0 := by omega
    have h1 := mid_zero_append_cons (s.take p) (s.drop (p + 1)) ':'
    have h2 := mid_succ_append_cons (s.take p) (s.drop (p + 1)) ':'
    rw [← hsplit, hlen] at h1 h2
    simp only [ToolChainFactory.typeIdFromMap, ToolChainFactory.idFromMap,
      ToolChainFactory.rawIdData, hs, hidx, hgt, not_true_eq_false, if_false, h1, h2, and_self]
  · intro hno
    have hidx := indexOf_of_not_mem s ':' hno
    have hgt : ¬ (QString.indexOf s ':' > 0) := by omega
    simp only [ToolChainFactory.typeIdFromMap, ToolChainFactory.idFromMap,
      ToolChainFactory.rawIdData, hs, hgt, not_false_eq_true, if_true, and_self]

/-- C3, applied: "gcc:abc123" gives "gcc" and "abc123", and "garbage" gives
"unknown" twice. -/
theorem typeIdFromMap_idFromMap_witness :
    (ToolChainFactory.typeIdFromMap (idOnly "gcc:abc123".toList)
          = Core.Id.fromString "gcc".toList
        ∧ ToolChainFactory.idFromMap (idOnly "gcc:abc123".toList)
          = QString.toUtf8 "abc123".toList)
      ∧ (ToolChainFactory.typeIdFromMap (idOnly "garbage".toList)
          = Core.Id.fromString "unknown".toList
        ∧ ToolChainFactory.idFromMap (idOnly "garbage".toList)
          = QString.toUtf8 "unknown".toList) :=
  ⟨(typeIdFromMap_idFromMap (idOnly "gcc:abc123".toList) 3).1 (by decide) (by decide)
      (by decide),
    (typeIdFromMap_idFromMap (idOnly "garbage".toList) 0).2 (by decide)⟩

/-- C4: `setLanguage(l)` sets the language to `l`, and nothing else, when the
current language is None and `l` is not None; in every other case it leaves
the descriptor unchanged.  On a fresh descriptor, `setLanguage(C)` followed
by `setLanguage(Cxx)` leaves the language at C. -/
theorem setLanguage_gate (tc : ToolChain) (l : Language) (mgr : ToolChainManager)
    (uuid : QByteArray) (typeName : QString) (typeId : Core.Id) (de : Detection) :
    (tc.setLanguage l mgr).1
        = (if tc.language = Language.None ∧ l ≠ Language.None
            then { tc with d := { tc.d with m_language := l } } else tc)
      ∧ ((((ToolChain.new uuid typeName typeId de).setLanguage Language.C mgr).1.setLanguage
            Language.Cxx mgr).1.language = Language.C) := by
  constructor
  · unfold ToolChain.setLanguage ToolChain.language
    by_cases h1 : tc.d.m_language = Language.None
    · by_cases h2 : l = Language.None <;> simp [h1, h2]
    · simp [h1]
  · have hC : ¬ (Language.C = Language.None) := by decide
    simp [ToolChain.setLanguage, ToolChain.new, Internal.ToolChainPrivate.new,
      ToolChain.language, hC]

/-- C5: for two distinct descriptors `a` and `b`, `a == b` holds exactly when
their type ids are equal and their auto-detection flags are equal; so the
result is the same in every store in which the two objects have these type
ids and flags, whatever their display names and instance ids. -/
theorem operatorEq_iff (mem : Nat → ToolChain) (a b : Nat) (hab : a ≠ b) :
    (ToolChain.operatorEq mem a b = true ↔
        (mem a).typeId = (mem b).typeId ∧ (mem a).isAutoDetected = (mem b).isAutoDetected)
      ∧ (∀ mem2 : Nat → ToolChain,
          (mem2 a).typeId = (mem a).typeId → (mem2 a).isAutoDetected = (mem a).isAutoDetected →
          (mem2 b).typeId = (mem b).typeId → (mem2 b).isAutoDetected = (mem b).isAutoDetected →
          ToolChain.operatorEq mem2 a b = ToolChain.operatorEq mem a b) := by
  constructor
  · simp [ToolChain.operatorEq, hab]
  · intro mem2 h1 h2 h3 h4
    simp [ToolChain.operatorEq, hab, h1, h2, h3, h4]

/-- C5, applied: two "gcc" descriptors, both manual, with different display
names and different instance ids, at the addresses 0 and 1, compare equal. -/
theorem operatorEq_iff_witness :
    gccManual.displayName ≠ gccRenamed.displayName ∧ gccManual.id ≠ gccRenamed.id
      ∧ ToolChain.operatorEq (fun n => if n = 0 then gccManual else gccRenamed) 0 1 = true :=
  ⟨by decide, by decide,
    (operatorEq_iff (fun n => if n = 0 then gccManual else gccRenamed) 0 1 (by decide)).1.mpr
      ⟨by decide, by decide⟩⟩

/-- C6: the copy constructor gives a descriptor with the type id and the
language of the source, manual detection whatever the source's detection,
the display name "Clone of " followed by the source's `displayName()` (the
type display name when the source has no configured name), which differs from
the source's name, and the freshly generated instance id `uuid`, not the
source's id. -/
theorem copy_spec (uuid : QByteArray) (typeName : QString) (s : ToolChain) :
    (ToolChain.copy uuid typeName s).typeId = s.typeId
      ∧ (ToolChain.copy uuid typeName s).language = s.language
      ∧ (ToolChain.copy uuid typeName s).detection = Detection.ManualDetection
      ∧ (ToolChain.copy uuid typeName s).displayName = "Clone of ".toList ++ s.displayName
      ∧ (s.d.m_displayName = [] →
          (ToolChain.copy uuid typeName s).displayName = "Clone of ".toList ++ s.typeDisplayName)
      ∧ (ToolChain.copy uuid typeName s).displayName ≠ s.displayName
      ∧ (ToolChain.copy uuid typeName s).displayName ≠ s.d.m_displayName
      ∧ (ToolChain.copy uuid typeName s).id = uuid := by
  have hname : (ToolChain.copy uuid typeName s).displayName
      = "Clone of ".toList ++ s.displayName := by
    simp [ToolChain.copy, ToolChain.displayName, ToolChain.translate, QString.arg,
      QString.isEmpty, Internal.ToolChainPrivate.new]
  have hlen : ∀ x : QString, "Clone of ".toList ++ x ≠ x := by
    intro x h
    have := congrArg List.length h
    simp at this
    omega
  refine ⟨rfl, rfl, rfl, hname, ?_, ?_, ?_, rfl⟩
  · intro h
    rw [hname]
    simp [ToolChain.displayName, QString.isEmpty, h]
  · rw [hname]
    exact hlen _
  · rw [hname]
    intro h
    by_cases he : s.d.m_displayName = []
    · rw [he] at h
      simp at h
    · have : s.displayName = s.d.m_displayName := by
        simp [ToolChain.displayName, QString.isEmpty, he]
      rw [this] at h
      exact hlen _ h

/-- C6, applied: the clone of the auto-detected "msvc" descriptor, which has
no configured name, is manual and is called "Clone of MSVC". -/
theorem copy_spec_witness :
    (ToolChain.copy (QString.toUtf8 "fresh".toList) "MSVC".toList msvcFresh).displayName
        = "Clone of MSVC".toList
      ∧ (ToolChain.copy (QString.toUtf8 "fresh".toList) "MSVC".toList msvcFresh).detection
        = Detection.ManualDetection :=
  ⟨((copy_spec (QString.toUtf8 "fresh".toList) "MSVC".toList msvcFresh).2.2.2.2.1
      (by decide)).trans (by decide),
    (copy_spec (QString.toUtf8 "fresh".toList) "MSVC".toList msvcFresh).2.2.1⟩

/-- C7 (as written, refuted): `fromMap` takes a descriptor whose language is C
to Cxx when the data say Cxx, and to None when the data hold the ordinal 0. -/
theorem language_transition_counterexample :
    gccManual.language = Language.C
      ∧ (gccManual.fromMap gccRenamed.toMap).2 = true
      ∧ (gccManual.fromMap gccRenamed.toMap).1.language = Language.Cxx
      ∧ (gccManual.fromMap
          (QVariantMap.insert (idOnly "gcc:abc123".toList) LANGUAGE_KEY (QVariant.int 0))).2 = true
      ∧ (gccManual.fromMap
          (QVariantMap.insert (idOnly "gcc:abc123".toList) LANGUAGE_KEY (QVariant.int 0))).1.language
        = Language.None := by
  decide

/-- C7 (amended): if the language of a descriptor is C or Cxx, then
`setLanguage`, `setDisplayName`, `setDetection` and a `fromMap` that returns
false leave it as it is; a `fromMap` that returns true replaces the language,
whatever it was before (None included), by the one read from the data: Cxx
when the ordinal is absent, unreadable or 2, and C when it is 1. -/
theorem language_kept_by_setters (tc : ToolChain) (l : Language) (name : QString)
    (de : Detection) (mgr : ToolChainManager) (data : QVariantMap) :
    (tc.language = Language.C ∨ tc.language = Language.Cxx →
        (tc.setLanguage l mgr).1.language = tc.language
          ∧ (tc.setDisplayName name mgr).1.language = tc.language
          ∧ (tc.setDetection de mgr).1.language = tc.language
          ∧ ((tc.fromMap data).2 = false → (tc.fromMap data).1.language = tc.language))
      ∧ ((tc.fromMap data).2 = true →
          (QVariantMap.find data LANGUAGE_KEY = none
              ∨ (QVariantMap.valueOr data LANGUAGE_KEY
                  (QVariant.int Language.Cxx.toInt)).toInt.2 = false
              ∨ (QVariantMap.valueOr data LANGUAGE_KEY
                  (QVariant.int Language.Cxx.toInt)).toInt.1 = 2
            → (tc.fromMap data).1.language = Language.Cxx)
          ∧ ((QVariantMap.valueOr data LANGUAGE_KEY (QVariant.int Language.Cxx.toInt)).toInt
              = (1, true)
            → (tc.fromMap data).1.language = Language.C)) := by
  constructor
  · intro h
    have hne : ¬ (tc.d.m_language = Language.None) := by
      rcases h with h | h <;> (unfold ToolChain.language at h; rw [h]; decide)
    refine ⟨?_, ?_, ?_, ?_⟩
    · simp [ToolChain.setLanguage, hne]
    · unfold ToolChain.setDisplayName
      split <;> rfl
    · unfold ToolChain.setDetection
      split <;> rfl
    · intro hf
      rcases fromMap_cases tc data with ⟨_, he⟩ | ⟨pre, suf, _, _, _, he⟩
      · rw [he]
        rfl
      · rw [he] at hf
        cases hf
  · intro ht
    rcases fromMap_cases tc data with ⟨_, he⟩ | ⟨pre, suf, _, _, _, he⟩
    · rw [he] at ht
      cases ht
    · rw [he]
      simp only [ToolChain.language]
      constructor
      · rintro (h0 | h2 | h1)
        · simp [QVariantMap.valueOr, h0, QVariant.toInt, Language.ofInt, Language.toInt,
            Language.Cxx]
        · simp [h2]
        · rw [h1]
          split <;> rfl
      · intro h1
        rw [h1]
        rfl

/-- C7 (amended), applied: the C descriptor "gcc" keeps its language under
`setLanguage(Cxx)` and under a failed `fromMap`; the fresh descriptor "msvc",
whose language is None, and the C descriptor "gcc" both get Cxx from a map
without the language key, and the fresh one gets C from the map of the C
descriptor. -/
theorem language_kept_by_setters_witness :
    (gccManual.setLanguage Language.Cxx ⟨0⟩).1.language = Language.C
      ∧ (gccManual.fromMap (idOnly "garbage".toList)).1.language = Language.C
      ∧ msvcFresh.language = Language.None
      ∧ (msvcFresh.fromMap (idOnly "gcc:abc123".toList)).1.language = Language.Cxx
      ∧ (gccManual.fromMap (idOnly "gcc:abc123".toList)).1.language = Language.Cxx
      ∧ (msvcFresh.fromMap gccManual.toMap).1.language = Language.C :=
  ⟨((language_kept_by_setters gccManual Language.Cxx [] Detection.AutoDetection ⟨0⟩
      (idOnly "garbage".toList)).1 (Or.inl (by decide))).1,
    ((language_kept_by_setters gccManual Language.Cxx [] Detection.AutoDetection ⟨0⟩
      (idOnly "garbage".toList)).1 (Or.inl (by decide))).2.2.2 (by decide),
    by decide,
    ((language_kept_by_setters msvcFresh Language.Cxx [] Detection.AutoDetection ⟨0⟩
      (idOnly "gcc:abc123".toList)).2 (by decide)).1 (Or.inl (by decide)),
    ((language_kept_by_setters gccManual Language.Cxx [] Detection.AutoDetection ⟨0⟩
      (idOnly "gcc:abc123".toList)).2 (by decide)).1 (Or.inl (by decide)),
    ((language_kept_by_setters msvcFresh Language.Cxx [] Detection.AutoDetection ⟨0⟩
      gccManual.toMap).2 (by decide)).2 (by decide)⟩

/-- C8 (as written, refuted): `fromMap` with the id "msvc:1" turns the type
id of a descriptor constructed with "gcc" into "msvc". -/
theorem typeId_overwritten_counterexample :
    gccManual.typeId = Core.Id.fromString "gcc".toList
      ∧ (gccManual.fromMap (idOnly "msvc:1".toList)).2 = true
      ∧ (gccManual.fromMap (idOnly "msvc:1".toList)).1.typeId
        = Core.Id.fromString "msvc".toList
      ∧ (gccManual.fromMap (idOnly "msvc:1".toList)).1.typeId ≠ gccManual.typeId := by
  decide

/-- C8 (amended): `setLanguage`, `setDisplayName`, `setDetection` and a
`fromMap` that returns false leave `typeId()` as it is; a `fromMap` that
returns true sets it to the id named by the text before the first `':'` of
the persisted composite id. -/
theorem typeId_kept_by_setters (tc : ToolChain) (l : Language) (name : QString)
    (de : Detection) (mgr : ToolChainManager) (data : QVariantMap) :
    (tc.setLanguage l mgr).1.typeId = tc.typeId
      ∧ (tc.setDisplayName name mgr).1.typeId = tc.typeId
      ∧ (tc.setDetection de mgr).1.typeId = tc.typeId
      ∧ ((tc.fromMap data).2 = false → (tc.fromMap data).1.typeId = tc.typeId)
      ∧ ((tc.fromMap data).2 = true →
          ∃ pre suf, (QVariantMap.value data ID_KEY).toString = pre ++ ':' :: suf
            ∧ ':' ∉ pre ∧ (tc.fromMap data).1.typeId = Core.Id.fromString pre) := by
  refine ⟨?_, ?_, ?_, ?_, ?_⟩
  · unfold ToolChain.setLanguage
    split
    · rfl
    · split <;> rfl
  · unfold ToolChain.setDisplayName
    split <;> rfl
  · unfold ToolChain.setDetection
    split <;> rfl
  · intro hf
    rcases fromMap_cases tc data with ⟨_, he⟩ | ⟨pre, suf, _, _, _, he⟩
    · rw [he]
      rfl
    · rw [he] at hf
      cases hf
  · intro ht
    rcases fromMap_cases tc data with ⟨_, he⟩ | ⟨pre, suf, hs, hp, _, he⟩
    · rw [he] at ht
      cases ht
    · exact ⟨pre, suf, hs, hp, by rw [he]; rfl⟩

/-- C8 (amended), applied: a failed `fromMap` keeps the type id "gcc". -/
theorem typeId_kept_by_setters_witness :
    (gccManual.fromMap (idOnly "garbage".toList)).1.typeId = Core.Id.fromString "gcc".toList :=
  (typeId_kept_by_setters gccManual Language.Cxx [] Detection.AutoDetection ⟨0⟩
    (idOnly "garbage".toList)).2.2.2.1 (by decide)

/-- C9 (as written, refuted): `setLanguage(C)` on a fresh descriptor changes
its state, and the manager has received no notification when the call
returns. -/
theorem setLanguage_silent_counterexample :
    (msvcFresh.setLanguage Language.C ⟨0⟩).1 ≠ msvcFresh
      ∧ (msvcFresh.setLanguage Language.C ⟨0⟩).1.language = Language.C
      ∧ (msvcFresh.setLanguage Language.C ⟨0⟩).2 = ⟨0⟩ := by
  decide

/-- C9 (amended): a call of `setDisplayName` or of `setDetection` that
changes the state of the descriptor emits one notification to the manager
during the call; `setLanguage` emits none, whether or not it changes the
state. -/
theorem notify_on_change (tc : ToolChain) (name : QString) (de : Detection) (l : Language)
    (mgr : ToolChainManager) :
    ((tc.setDisplayName name mgr).1 ≠ tc →
        (tc.setDisplayName name mgr).2.updates = mgr.updates + 1)
      ∧ ((tc.setDetection de mgr).1 ≠ tc →
        (tc.setDetection de mgr).2.updates = mgr.updates + 1)
      ∧ (tc.setLanguage l mgr).2 = mgr := by
  refine ⟨?_, ?_, ?_⟩
  · unfold ToolChain.setDisplayName
    split
    · intro h
      exact absurd rfl h
    · intro _
      rfl
  · unfold ToolChain.setDetection
    split
    · intro h
      exact absurd rfl h
    · intro _
      rfl
  · unfold ToolChain.setLanguage
    split
    · rfl
    · split <;> rfl

/-- C9 (amended), applied: renaming the "gcc" descriptor notifies once. -/
theorem notify_on_change_witness :
    (gccManual.setDisplayName "Renamed".toList ⟨0⟩).2.updates = 1 :=
  (notify_on_change gccManual "Renamed".toList Detection.AutoDetection Language.Cxx ⟨0⟩).1
    (by decide)

/-- C10 (as written, refuted).  First: the "msvc" descriptor has no configured
name, so `displayName()` already returns "MSVC"; `setDisplayName("MSVC")` is
still not a no-op: the state changes and a notification is emitted.  Second:
`setDisplayName("")` on a descriptor named "My compiler" is accepted, and
afterwards `displayName()` returns "GCC", not the empty name. -/
theorem setDisplayName_counterexample :
    (msvcFresh.displayName = "MSVC".toList
        ∧ (msvcFresh.setDisplayName "MSVC".toList ⟨0⟩).1 ≠ msvcFresh
        ∧ (msvcFresh.setDisplayName "MSVC".toList ⟨0⟩).2.updates = 1)
      ∧ (gccRenamed.displayName = "My compiler".toList
        ∧ (gccRenamed.setDisplayName [] ⟨0⟩).1.displayName = "GCC".toList
        ∧ (gccRenamed.setDisplayName [] ⟨0⟩).1.displayName ≠ []) := by
  decide

/-- C10 (amended): if the stored display name already equals `name`,
`setDisplayName(name)` changes no state and emits no notification; otherwise
the stored display name is `name` afterwards (so `displayName()` returns
`name` when `name` is non-empty, and the type display name when it is
empty), exactly one notification has been emitted, and type id, instance id,
language and detection are unchanged. -/
theorem setDisplayName_spec (tc : ToolChain) (name : QString) (mgr : ToolChainManager) :
    (tc.d.m_displayName = name → tc.setDisplayName name mgr = (tc, mgr))
      ∧ (tc.d.m_displayName ≠ name →
        (tc.setDisplayName name mgr).1.d.m_displayName = name
          ∧ (name ≠ [] → (tc.setDisplayName name mgr).1.displayName = name)
          ∧ (name = [] → (tc.setDisplayName name mgr).1.displayName = tc.typeDisplayName)
          ∧ (tc.setDisplayName name mgr).2.updates = mgr.updates + 1
          ∧ (tc.setDisplayName name mgr).1.typeId = tc.typeId
          ∧ (tc.setDisplayName name mgr).1.id = tc.id
          ∧ (tc.setDisplayName name mgr).1.language = tc.language
          ∧ (tc.setDisplayName name mgr).1.detection = tc.detection) := by
  constructor
  · intro h
    simp [ToolChain.setDisplayName, h]
  · intro h
    have he : tc.setDisplayName name mgr
        = ({ tc with d := { tc.d with m_displayName := name } }, mgr.notifyAboutUpdate) := by
      unfold ToolChain.setDisplayName
      rw [if_neg h]
      rfl
    rw [he]
    refine ⟨rfl, ?_, ?_, rfl, rfl, rfl, rfl, rfl⟩
    · intro hn
      cases name with
      | nil => exact absurd rfl hn
      | cons c cs => simp [ToolChain.displayName, QString.isEmpty]
    · intro hn
      simp [ToolChain.displayName, QString.isEmpty, hn]

/-- C10 (amended), applied: naming the "msvc" descriptor "MSVC", and the same
call repeated. -/
theorem setDisplayName_spec_witness :
    (msvcFresh.setDisplayName "MSVC".toList ⟨0⟩).2.updates = 1
      ∧ (msvcFresh.setDisplayName "MSVC".toList ⟨0⟩).1.setDisplayName "MSVC".toList ⟨1⟩
        = ((msvcFresh.setDisplayName "MSVC".toList ⟨0⟩).1, ⟨1⟩) :=
  ⟨((setDisplayName_spec msvcFresh "MSVC".toList ⟨0⟩).2 (by decide)).2.2.2.1,
    (setDisplayName_spec (msvcFresh.setDisplayName "MSVC".toList ⟨0⟩).1 "MSVC".toList ⟨1⟩).1
      (by decide)⟩

/-- C11: if `de` equals the current detection, `setDetection(de)` changes no
state and emits no notification; otherwise `detection()` returns `de`
afterwards, exactly one notification has been emitted, and type id, instance
id, display name and language are unchanged. -/
theorem setDetection_spec (tc : ToolChain) (de : Detection) (mgr : ToolChainManager) :
    (tc.detection = de → tc.setDetection de mgr = (tc, mgr))
      ∧ (tc.detection ≠ de →
        (tc.setDetection de mgr).1.detection = de
          ∧ (tc.setDetection de mgr).2.updates = mgr.updates + 1
          ∧ (tc.setDetection de mgr).1.typeId = tc.typeId
          ∧ (tc.setDetection de mgr).1.id = tc.id
          ∧ (tc.setDetection de mgr).1.d.m_displayName = tc.d.m_displayName
          ∧ (tc.setDetection de mgr).1.displayName = tc.displayName
          ∧ (tc.setDetection de mgr).1.language = tc.language) := by
  constructor
  · intro h
    unfold ToolChain.detection at h
    unfold ToolChain.setDetection
    rw [if_pos h]
  · intro h
    unfold ToolChain.detection at h
    have he : tc.setDetection de mgr
        = ({ tc with d := { tc.d with m_detection := de } }, mgr.notifyAboutUpdate) := by
      unfold ToolChain.setDetection
      rw [if_neg h]
      rfl
    rw [he]
    exact ⟨rfl, rfl, rfl, rfl, rfl, rfl, rfl⟩

/-- C11, applied: marking the manual "gcc" descriptor as auto-detected
notifies once, and repeating the call does nothing. -/
theorem setDetection_spec_witness :
    (gccManual.setDetection Detection.AutoDetection ⟨0⟩).1.detection = Detection.AutoDetection
      ∧ (gccManual.setDetection Detection.AutoDetection ⟨0⟩).2.updates = 1
      ∧ gccManual.setDetection Detection.ManualDetection ⟨0⟩ = (gccManual, ⟨0⟩) :=
  ⟨((setDetection_spec gccManual Detection.AutoDetection ⟨0⟩).2 (by decide)).1,
    ((setDetection_spec gccManual Detection.AutoDetection ⟨0⟩).2 (by decide)).2.1,
    (setDetection_spec gccManual Detection.ManualDetection ⟨0⟩).1 (by decide)⟩

/-- C12: for a persisted map whose composite id is well formed (a non-empty
type part without `':'`, then `':'`) and whose language key is absent or
holds a value that `toInt` cannot read as an integer, `fromMap` returns true
and the language is Cxx afterwards, whatever it was before. -/
theorem fromMap_language_fallback (tc : ToolChain) (data : QVariantMap) (pre suf : QString)
    (hid : (QVariantMap.value data ID_KEY).toString = pre ++ ':' :: suf)
    (hpre : ':' ∉ pre) (hne : pre ≠ [])
    (hlang : QVariantMap.find data LANGUAGE_KEY = none
      ∨ (QVariantMap.value data LANGUAGE_KEY).toInt.2 = false) :
    (tc.fromMap data).2 = true ∧ (tc.fromMap data).1.language = Language.Cxx := by
  rw [fromMap_of_split tc data pre suf hid hpre hne]
  refine ⟨rfl, ?_⟩
  simp only [ToolChain.language]
  cases hf : QVariantMap.find data LANGUAGE_KEY with
  | none =>
    simp [QVariantMap.valueOr, hf, QVariant.toInt, Language.ofInt, Language.toInt, Language.Cxx]
  | some v =>
    rcases hlang with h | h
    · rw [hf] at h
      cases h
    · have hv : QVariantMap.valueOr data LANGUAGE_KEY (QVariant.int Language.Cxx.toInt) = v := by
        simp [QVariantMap.valueOr, hf]
      have hv2 : QVariantMap.value data LANGUAGE_KEY = v := by
        simp [QVariantMap.value, QVariantMap.valueOr, hf]
      rw [hv]
      rw [hv2] at h
      simp [h]

/-- C12, applied to the C descriptor "gcc": a map without the language key,
and a map whose language is the text "c++". -/
theorem fromMap_language_fallback_witness :
    ((gccManual.fromMap (idOnly "gcc:abc123".toList)).2 = true
        ∧ (gccManual.fromMap (idOnly "gcc:abc123".toList)).1.language = Language.Cxx)
      ∧ ((gccManual.fromMap (QVariantMap.insert (idOnly "gcc:abc123".toList) LANGUAGE_KEY
            (QVariant.string "c++".toList))).2 = true
        ∧ (gccManual.fromMap (QVariantMap.insert (idOnly "gcc:abc123".toList) LANGUAGE_KEY
            (QVariant.string "c++".toList))).1.language = Language.Cxx) :=
  ⟨fromMap_language_fallback gccManual (idOnly "gcc:abc123".toList) "gcc".toList
      "abc123".toList (by decide) (by decide) (by decide) (Or.inl (by decide)),
    fromMap_language_fallback gccManual
      (QVariantMap.insert (idOnly "gcc:abc123".toList) LANGUAGE_KEY (QVariant.string "c++".toList))
      "gcc".toList "abc123".toList (by decide) (by decide) (by decide) (Or.inr (by decide))⟩

/-- C13 (as written, refuted): the map that `toMap` writes for a descriptor
whose language was never set holds the ordinal 0, and `fromMap` on it returns
true and leaves the language None; the same happens for a map that holds the
ordinal 0 next to a well-formed id. -/
theorem restored_language_none_counterexample :
    QVariantMap.find msvcFresh.toMap LANGUAGE_KEY = some (QVariant.int 0)
      ∧ (gccManual.fromMap msvcFresh.toMap).2 = true
      ∧ (gccManual.fromMap msvcFresh.toMap).1.language = Language.None
      ∧ (gccManual.fromMap
          (QVariantMap.insert (idOnly "gcc:abc123".toList) LANGUAGE_KEY (QVariant.int 0))).2 = true
      ∧ (gccManual.fromMap
          (QVariantMap.insert (idOnly "gcc:abc123".toList) LANGUAGE_KEY (QVariant.int 0))).1.language
        = Language.None
      ∧ Language.None ≠ Language.C ∧ Language.None ≠ Language.Cxx := by
  decide

/-- C13 (amended): for every persisted map on which `fromMap` returns true
and whose language key is absent, or holds a value that `toInt` cannot read,
or holds the ordinal 1 or 2, the language of the descriptor afterwards is C
or Cxx. -/
theorem restored_language_concrete (tc : ToolChain) (data : QVariantMap)
    (hok : (tc.fromMap data).2 = true)
    (hlang : QVariantMap.find data LANGUAGE_KEY = none
      ∨ (QVariantMap.value data LANGUAGE_KEY).toInt.2 = false
      ∨ (QVariantMap.value data LANGUAGE_KEY).toInt.1 = 1
      ∨ (QVariantMap.value data LANGUAGE_KEY).toInt.1 = 2) :
    (tc.fromMap data).1.language = Language.C ∨ (tc.fromMap data).1.language = Language.Cxx := by
  rcases fromMap_cases tc data with ⟨_, he⟩ | ⟨pre, suf, _, _, _, he⟩
  · rw [he] at hok
    cases hok
  · rw [he]
    simp only [ToolChain.language]
    cases hf : QVariantMap.find data LANGUAGE_KEY with
    | none =>
      right
      simp [QVariantMap.valueOr, hf, QVariant.toInt, Language.ofInt, Language.toInt,
        Language.Cxx]
    | some v =>
      have hv : QVariantMap.valueOr data LANGUAGE_KEY (QVariant.int Language.Cxx.toInt) = v := by
        simp [QVariantMap.valueOr, hf]
      have hv2 : QVariantMap.value data LANGUAGE_KEY = v := by
        simp [QVariantMap.value, QVariantMap.valueOr, hf]
      rw [hv]
      rw [hv2, hf] at hlang
      rcases hlang with h | h | h | h
      · cases h
      · right
        simp [h]
      · by_cases hb : v.toInt.2 = true
        · left
          simp [hb, h, Language.ofInt, Language.C]
        · right
          simp [hb]
      · right
        by_cases hb : v.toInt.2 = true
        · simp [hb, h, Language.ofInt, Language.Cxx]
        · simp [hb]

/-- C13 (amended), applied: the map of the C descriptor "gcc", restored into
the fresh "msvc" descriptor, gives the language C. -/
theorem restored_language_concrete_witness :
    (msvcFresh.fromMap gccManual.toMap).1.language = Language.C
      ∨ (msvcFresh.fromMap gccManual.toMap).1.language = Language.Cxx :=
  restored_language_concrete msvcFresh gccManual.toMap (by decide)
    (Or.inr (Or.inr (Or.inl (by decide))))

/-- C14: if the type id of a descriptor is non-empty and contains no `':'`,
the same holds after `setLanguage`, `setDisplayName`, `setDetection` and after
`fromMap` with any data, whether it returns true or false. -/
theorem typeId_wellFormed_invariant (tc : ToolChain) (l : Language) (name : QString)
    (de : Detection) (mgr : ToolChainManager) (data : QVariantMap)
    (hne : tc.typeId.toString ≠ []) (hsep : ':' ∉ tc.typeId.toString) :
    ((tc.setLanguage l mgr).1.typeId.toString ≠ []
        ∧ ':' ∉ (tc.setLanguage l mgr).1.typeId.toString)
      ∧ ((tc.setDisplayName name mgr).1.typeId.toString ≠ []
        ∧ ':' ∉ (tc.setDisplayName name mgr).1.typeId.toString)
      ∧ ((tc.setDetection de mgr).1.typeId.toString ≠ []
        ∧ ':' ∉ (tc.setDetection de mgr).1.typeId.toString)
      ∧ ((tc.fromMap data).1.typeId.toString ≠ []
        ∧ ':' ∉ (tc.fromMap data).1.typeId.toString) := by
  have h1 : (tc.setLanguage l mgr).1.typeId = tc.typeId := by
    unfold ToolChain.setLanguage
    split
    · rfl
    · split <;> rfl
  have h2 : (tc.setDisplayName name mgr).1.typeId = tc.typeId := by
    unfold ToolChain.setDisplayName
    split <;> rfl
  have h3 : (tc.setDetection de mgr).1.typeId = tc.typeId := by
    unfold ToolChain.setDetection
    split <;> rfl
  rw [h1, h2, h3]
  refine ⟨⟨hne, hsep⟩, ⟨hne, hsep⟩, ⟨hne, hsep⟩, ?_⟩
  rcases fromMap_cases tc data with ⟨_, he⟩ | ⟨pre, suf, _, hp, hn, he⟩
  · rw [he]
    exact ⟨hne, hsep⟩
  · rw [he]
    exact ⟨hn, hp⟩

/-- C14, applied to the descriptor "gcc": after a failed `fromMap` and after a
`fromMap` that installs the type id "msvc". -/
theorem typeId_wellFormed_invariant_witness :
    ((gccManual.fromMap (idOnly "garbage".toList)).1.typeId.toString ≠ []
        ∧ ':' ∉ (gccManual.fromMap (idOnly "garbage".toList)).1.typeId.toString)
      ∧ ((gccManual.fromMap (idOnly "msvc:1:2".toList)).1.typeId.toString ≠ []
        ∧ ':' ∉ (gccManual.fromMap (idOnly "msvc:1:2".toList)).1.typeId.toString) :=
  ⟨(typeId_wellFormed_invariant gccManual Language.Cxx [] Detection.AutoDetection ⟨0⟩
      (idOnly "garbage".toList) (by decide) (by decide)).2.2.2,
    (typeId_wellFormed_invariant gccManual Language.Cxx [] Detection.AutoDetection ⟨0⟩
      (idOnly "msvc:1:2".toList) (by decide) (by decide)).2.2.2⟩

/-- C17: `autoDetectionToMap(data, b)` gives a map in which the auto-detection
key holds `b` and every other key holds what it held in `data`; a `fromMap`
on that map that returns true leaves the detection at
AutoDetectionFromSettings when `b` is true and at ManualDetection when `b` is
false. -/
theorem autoDetectionToMap_spec (data : QVariantMap) (b : Bool) (tc : ToolChain) :
    QVariantMap.find (ToolChainFactory.autoDetectionToMap data b) AUTODETECT_KEY
        = some (QVariant.bool b)
      ∧ (∀ k, k ≠ AUTODETECT_KEY →
          QVariantMap.find (ToolChainFactory.autoDetectionToMap data b) k
            = QVariantMap.find data k)
      ∧ ((tc.fromMap (ToolChainFactory.autoDetectionToMap data b)).2 = true →
          (tc.fromMap (ToolChainFactory.autoDetectionToMap data b)).1.detection
            = if b then Detection.AutoDetectionFromSettings else Detection.ManualDetection) := by
  have hfind : QVariantMap.find (ToolChainFactory.autoDetectionToMap data b) AUTODETECT_KEY
      = some (QVariant.bool b) := by
    simp [ToolChainFactory.autoDetectionToMap, find_insert]
  refine ⟨hfind, ?_, ?_⟩
  · intro k hk
    have hk2 : ¬ AUTODETECT_KEY = k := fun e => hk e.symm
    simp [ToolChainFactory.autoDetectionToMap, find_insert, hk2]
  · intro hok
    rcases fromMap_cases tc (ToolChainFactory.autoDetectionToMap data b) with
      ⟨_, he⟩ | ⟨pre, suf, _, _, _, he⟩
    · rw [he] at hok
      cases hok
    · rw [he]
      simp only [ToolChain.detection, QVariantMap.valueOr, hfind, QVariant.toBool]

/-- C17, applied: the map of the manual descriptor "gcc", flagged as detected,
restores as AutoDetectionFromSettings; all other keys are as before. -/
theorem autoDetectionToMap_spec_witness :
    (msvcFresh.fromMap (ToolChainFactory.autoDetectionToMap gccManual.toMap true)).1.detection
        = Detection.AutoDetectionFromSettings
      ∧ QVariantMap.find (ToolChainFactory.autoDetectionToMap gccManual.toMap true) ID_KEY
        = QVariantMap.find gccManual.toMap ID_KEY :=
  ⟨(autoDetectionToMap_spec gccManual.toMap true msvcFresh).2.2 (by decide),
    (autoDetectionToMap_spec gccManual.toMap true msvcFresh).2.1 ID_KEY (by decide)⟩

/-- The branch of `rawIdData` that splits the id, for an id with a
non-empty type part. -/
theorem rawIdData_of_split (data : QVariantMap) (pre suf : QString)
    (hid : (QVariantMap.value data ID_KEY).toString = pre ++ ':' :: suf)
    (hpre : ':' ∉ pre) (hne : pre ≠ []) :
    ToolChainFactory.rawIdData data = (pre, suf) := by
  have hpos : QString.indexOf (pre ++ ':' :: suf) ':' = (pre.length : Int) :=
    indexOf_append_cons pre suf ':' hpre
  have hlen : 0 < pre.length := List.length_pos.mpr hne
  have hgt : (pre.length : Int) > 0 := by omega
  have h1 := mid_zero_append_cons pre suf ':'
  have h2 := mid_succ_append_cons pre suf ':'
  unfold ToolChainFactory.rawIdData
  simp only [hid, hpos, hgt, not_true_eq_false, if_false, h1, h2]

/-- The fallback branch of `rawIdData`. -/
theorem rawIdData_of_not_pos (data : QVariantMap)
    (h : ¬ (QString.indexOf (QVariantMap.value data ID_KEY).toString ':' > 0)) :
    ToolChainFactory.rawIdData data = ("unknown".toList, "unknown".toList) := by
  unfold ToolChainFactory.rawIdData
  simp only [h, not_false_eq_true, if_true]

/-- C18: `fromMap` and the routing helpers agree on every persisted map.
`fromMap(data)` returns true exactly when the guard `pos > 0` of `rawIdData`
holds, that is when `rawIdData` does not take its "unknown" branch: then
`rawIdData` is the pair of the two halves of the id string, and `typeId()`
and `id()` of the descriptor equal `typeIdFromMap(data)` and
`idFromMap(data)`; when `fromMap` returns false, `rawIdData` is the fallback
pair. -/
theorem fromMap_agrees_with_rawIdData (tc : ToolChain) (data : QVariantMap) :
    ((tc.fromMap data).2 = true ↔
        QString.indexOf (QVariantMap.value data ID_KEY).toString ':' > 0)
      ∧ ((tc.fromMap data).2 = false →
          ToolChainFactory.rawIdData data = ("unknown".toList, "unknown".toList))
      ∧ ((tc.fromMap data).2 = true →
          (QVariantMap.value data ID_KEY).toString
              = (ToolChainFactory.rawIdData data).1 ++ ':' :: (ToolChainFactory.rawIdData data).2
            ∧ ':' ∉ (ToolChainFactory.rawIdData data).1
            ∧ (ToolChainFactory.rawIdData data).1 ≠ []
            ∧ (tc.fromMap data).1.typeId = ToolChainFactory.typeIdFromMap data
            ∧ (tc.fromMap data).1.id = ToolChainFactory.idFromMap data) := by
  rcases fromMap_cases tc data with ⟨hnp, he⟩ | ⟨pre, suf, hs, hp, hn, he⟩
  · rw [he]
    refine ⟨?_, ?_, ?_⟩
    · constructor
      · intro h
        cases h
      · intro h
        exact absurd h hnp
    · intro _
      exact rawIdData_of_not_pos data hnp
    · intro h
      cases h
  · have hr := rawIdData_of_split data pre suf hs hp hn
    have hpos : QString.indexOf (QVariantMap.value data ID_KEY).toString ':' > 0 := by
      rw [hs, indexOf_append_cons pre suf ':' hp]
      have : 0 < pre.length := List.length_pos.mpr hn
      omega
    rw [he]
    refine ⟨?_, ?_, ?_⟩
    · constructor
      · intro _
        exact hpos
      · intro _
        rfl
    · intro h
      cases h
    · intro _
      simp only [ToolChainFactory.typeIdFromMap, ToolChainFactory.idFromMap, hr]
      exact ⟨hs, hp, hn, rfl, rfl⟩

/-- C18, applied: for "gcc:abc123" the descriptor and the helpers give the
same type id and the same instance id. -/
theorem fromMap_agrees_with_rawIdData_witness :
    (msvcFresh.fromMap (idOnly "gcc:abc123".toList)).1.typeId
        = ToolChainFactory.typeIdFromMap (idOnly "gcc:abc123".toList)
      ∧ (msvcFresh.fromMap (idOnly "gcc:abc123".toList)).1.id
        = ToolChainFactory.idFromMap (idOnly "gcc:abc123".toList)
      ∧ ToolChainFactory.rawIdData (idOnly "garbage".toList)
        = ("unknown".toList, "unknown".toList) :=
  ⟨((fromMap_agrees_with_rawIdData msvcFresh (idOnly "gcc:abc123".toList)).2.2
      (by decide)).2.2.2.1,
    ((fromMap_agrees_with_rawIdData msvcFresh (idOnly "gcc:abc123".toList)).2.2
      (by decide)).2.2.2.2,
    (fromMap_agrees_with_rawIdData msvcFresh (idOnly "garbage".toList)).2.1 (by decide)⟩

/-- C19: when `fromMap` returns false, the descriptor is as before except for
the stored display name, which is the text of the map's display-name value
(empty when the key is absent): type id, instance id, detection and language
are unchanged. -/
theorem fromMap_failure_frame (tc : ToolChain) (data : QVariantMap)
    (hfail : (tc.fromMap data).2 = false) :
    (tc.fromMap data).1
        = { tc with d := { tc.d with
              m_displayName := (QVariantMap.value data DISPLAY_NAME_KEY).toString } }
      ∧ (tc.fromMap data).1.typeId = tc.typeId
      ∧ (tc.fromMap data).1.id = tc.id
      ∧ (tc.fromMap data).1.detection = tc.detection
      ∧ (tc.fromMap data).1.language = tc.language
      ∧ (tc.fromMap data).1.d.m_displayName = (QVariantMap.value data DISPLAY_NAME_KEY).toString
      ∧ (QVariantMap.contains data DISPLAY_NAME_KEY = false →
          (tc.fromMap data).1.d.m_displayName = []) := by
  rcases fromMap_cases tc data with ⟨_, he⟩ | ⟨pre, suf, _, _, _, he⟩
  · rw [he]
    refine ⟨rfl, rfl, rfl, rfl, rfl, rfl, ?_⟩
    intro hc
    have hnone : QVariantMap.find data DISPLAY_NAME_KEY = none := by
      simpa [QVariantMap.contains] using hc
    simp [QVariantMap.value, QVariantMap.valueOr, hnone, QVariant.toString]
  · rw [he] at hfail
    cases hfail

/-- C19, applied: a failed `fromMap` on the descriptor named "My compiler"
keeps its type id and erases the stored name. -/
theorem fromMap_failure_frame_witness :
    gccRenamed.d.m_displayName = "My compiler".toList
      ∧ (gccRenamed.fromMap (idOnly "garbage".toList)).1.typeId = gccRenamed.typeId
      ∧ (gccRenamed.fromMap (idOnly "garbage".toList)).1.d.m_displayName = [] :=
  ⟨by decide,
    (fromMap_failure_frame gccRenamed (idOnly "garbage".toList) (by decide)).2.1,
    (fromMap_failure_frame gccRenamed (idOnly "garbage".toList) (by decide)).2.2.2.2.2.2
      (by decide)⟩

/-- C20: when `fromMap(data)` returns true on one descriptor it returns true
on every descriptor, any two descriptors end with the same type id, instance
id, stored display name, detection and language, and a second `fromMap` with
the same data changes nothing. -/
theorem fromMap_success_deterministic (t1 t2 : ToolChain) (data : QVariantMap)
    (hok : (t1.fromMap data).2 = true) :
    (t2.fromMap data).2 = true
      ∧ (t1.fromMap data).1.typeId = (t2.fromMap data).1.typeId
      ∧ (t1.fromMap data).1.id = (t2.fromMap data).1.id
      ∧ (t1.fromMap data).1.d.m_displayName = (t2.fromMap data).1.d.m_displayName
      ∧ (t1.fromMap data).1.detection = (t2.fromMap data).1.detection
      ∧ (t1.fromMap data).1.language = (t2.fromMap data).1.language
      ∧ (t1.fromMap data).1.fromMap data = ((t1.fromMap data).1, true) := by
  rcases fromMap_cases t1 data with ⟨_, he⟩ | ⟨pre, suf, hs, hp, hn, he⟩
  · rw [he] at hok
    cases hok
  · have h2 := fromMap_of_split t2 data pre suf hs hp hn
    have h3 := fromMap_of_split (t1.fromMap data).1 data pre suf hs hp hn
    rw [h3, h2, he]
    exact ⟨rfl, rfl, rfl, rfl, rfl, rfl, rfl⟩

/-- C20, applied: the map of the descriptor "gcc" restored into two unrelated
descriptors. -/
theorem fromMap_success_deterministic_witness :
    (gccRenamed.fromMap gccManual.toMap).2 = true
      ∧ (msvcFresh.fromMap gccManual.toMap).1.typeId
        = (gccRenamed.fromMap gccManual.toMap).1.typeId
      ∧ (msvcFresh.fromMap gccManual.toMap).1.fromMap gccManual.toMap
        = ((msvcFresh.fromMap gccManual.toMap).1, true) :=
  ⟨(fromMap_success_deterministic msvcFresh gccRenamed gccManual.toMap (by decide)).1,
    (fromMap_success_deterministic msvcFresh gccRenamed gccManual.toMap (by decide)).2.1,
    (fromMap_success_deterministic msvcFresh gccRenamed gccManual.toMap
      (by decide)).2.2.2.2.2.2⟩

end ProjectExplorer
